import Mathlib

/-!
Verification development for the LLM-response recovery, post-processing and
feature-compression pipeline of `django_backend/cyberintel/threat_forecast.py`.

The Python code is shallowly embedded: strings are `String`/`List Char`,
Python `int` is `Int`, Python `float` is modelled by `Rat` (exact arithmetic;
all concrete inputs used below keep every intermediate value exactly
representable, and `round` is modelled as round-half-to-even on rationals,
which agrees with Python's `round` on all non-midpoint values), Python `None`
and JSON `null` are `Json.null`, and exceptions are `Option`/`Except`.
-/

set_option maxRecDepth 6000

attribute [local semireducible] Rat.add Rat.mul Rat.inv Rat.sub Rat.ofScientific

namespace ThreatForecast

/-- Values produced by `json.loads` / `ast.literal_eval`: the dynamic data the
pipeline manipulates.  Python `dict`s are insertion-ordered association lists,
and Python distinguishes `int` from `float`, hence two numeric constructors. -/
inductive Json where
  | null
  | bool (b : Bool)
  | int (n : Int)
  | float (q : Rat)
  | str (s : String)
  | arr (xs : List Json)
  | obj (kvs : List (String × Json))

/-- A Python dict with string keys, in insertion order. -/
abbrev JObj := List (String × Json)

/-- The apostrophe character (written via its code point). -/
def squote : Char := Char.ofNat 39

/-- The backslash character. -/
def bslash : Char := '\\'

/-- The backtick character (written via its code point). -/
def btick : Char := Char.ofNat 96

/-- JSON whitespace accepted by `json.loads` between tokens. -/
def isJsonWs (c : Char) : Bool :=
  c == ' ' || c == '\t' || c == '\n' || c == '\r'

/-- Python `str.strip()` whitespace (`\s` of the `re` module). -/
def isPySpace (c : Char) : Bool :=
  c == ' ' || c == '\t' || c == '\n' || c == '\r' ||
  c == Char.ofNat 11 || c == Char.ofNat 12

/-- Drop leading JSON whitespace. -/
def skipWs (cs : List Char) : List Char := cs.dropWhile isJsonWs

/-- Value of a digit character. -/
def digitVal (c : Char) : Nat := c.toNat - 48

/-- Numeric value of a digit run. -/
def digitsToNat (ds : List Char) : Nat := ds.foldl (fun a c => a * 10 + digitVal c) 0

/-- String body scanner of the strict JSON parser: consumes characters after the
opening double quote up to the closing double quote, decoding backslash escapes
(the `\uXXXX` form is not needed by any input considered here and is rejected)
and rejecting raw control characters, exactly as Python's `json.loads` does. -/
def jpStringGo : List Char → List Char → Option (String × List Char)
  | [], _ => none
  | c :: rest, acc =>
    if c = '"' then some (String.mk acc.reverse, rest)
    else if c = bslash then
      match rest with
      | [] => none
      | e :: rest2 =>
        if e = '"' then jpStringGo rest2 ('"' :: acc)
        else if e = bslash then jpStringGo rest2 (bslash :: acc)
        else if e = '/' then jpStringGo rest2 ('/' :: acc)
        else if e = 'n' then jpStringGo rest2 ('\n' :: acc)
        else if e = 't' then jpStringGo rest2 ('\t' :: acc)
        else if e = 'r' then jpStringGo rest2 ('\r' :: acc)
        else if e = 'b' then jpStringGo rest2 (Char.ofNat 8 :: acc)
        else if e = 'f' then jpStringGo rest2 (Char.ofNat 12 :: acc)
        else none
    else if c.toNat < 32 then none
    else jpStringGo rest (c :: acc)

/-- Optional JSON exponent suffix applied to an already-parsed mantissa. -/
def jpExpo (q : Rat) (cs : List Char) : Rat × List Char × Bool :=
  match cs with
  | c :: cs1 =>
    if c = 'e' ∨ c = 'E' then
      let (eneg, cs2) : Bool × List Char :=
        match cs1 with
        | s :: r => if s = '-' then (true, r) else if s = '+' then (false, r) else (false, cs1)
        | [] => (false, cs1)
      let ds := cs2.takeWhile Char.isDigit
      if ds = [] then (q, cs, false)
      else
        let e := digitsToNat ds
        let f : Rat := (10 : Rat) ^ e
        ((if eneg then q / f else q * f), cs2.dropWhile Char.isDigit, true)
    else (q, cs, false)
  | [] => (q, cs, false)

/-- JSON number parser (sign, integer part without leading zeros, optional
fraction and exponent); returns `Json.int` for plain integers and `Json.float`
otherwise, as `json.loads` does. -/
def jpNumber (cs : List Char) : Option (Json × List Char) :=
  let (neg, cs1) : Bool × List Char :=
    match cs with
    | c :: r => if c = '-' then (true, r) else (false, cs)
    | [] => (false, cs)
  let ip := cs1.takeWhile Char.isDigit
  let cs2 := cs1.dropWhile Char.isDigit
  if ip = [] then none
  else if 1 < ip.length ∧ ip.headD '0' = '0' then none
  else
    let ipN : Nat := digitsToNat ip
    match cs2 with
    | '.' :: cs3 =>
      let fp := cs3.takeWhile Char.isDigit
      if fp = [] then none
      else
        let v : Rat := (ipN : Rat) + (digitsToNat fp : Rat) / ((10 : Rat) ^ fp.length)
        let v := if neg then -v else v
        let (v2, rest, _) := jpExpo v (cs3.dropWhile Char.isDigit)
        some (.float v2, rest)
    | _ =>
      let v : Rat := (ipN : Rat)
      let v := if neg then -v else v
      let (v2, rest, used) := jpExpo v cs2
      if used then some (.float v2, rest) else some (.int (if neg then -(ipN : Int) else (ipN : Int)), rest)

mutual

/-- Fueled recursive-descent value parser modelling strict `json.loads`
(objects, arrays, strings, numbers, `true`/`false`/`null`; trailing commas and
single quotes are syntax errors). -/
def jpVal : Nat → List Char → Option (Json × List Char)
  | 0, _ => none
  | fuel + 1, cs =>
    match skipWs cs with
    | '\x7b' :: rest =>
      match skipWs rest with
      | '\x7d' :: r => some (.obj [], r)
      | cs2 => jpObjItems fuel cs2 []
    | '[' :: rest =>
      match skipWs rest with
      | ']' :: r => some (.arr [], r)
      | cs2 => jpArrItems fuel cs2 []
    | '"' :: rest =>
      match jpStringGo rest [] with
      | some (s, r) => some (.str s, r)
      | none => none
    | 't' :: 'r' :: 'u' :: 'e' :: r => some (.bool true, r)
    | 'f' :: 'a' :: 'l' :: 's' :: 'e' :: r => some (.bool false, r)
    | 'n' :: 'u' :: 'l' :: 'l' :: r => some (.null, r)
    | cs1 => jpNumber cs1

/-- Member list of a JSON object after at least one member is known to follow. -/
def jpObjItems : Nat → List Char → JObj → Option (Json × List Char)
  | 0, _, _ => none
  | fuel + 1, cs, acc =>
    match cs with
    | '"' :: rest =>
      match jpStringGo rest [] with
      | none => none
      | some (k, r1) =>
        match skipWs r1 with
        | ':' :: r2 =>
          match jpVal fuel r2 with
          | none => none
          | some (v, r3) =>
            match skipWs r3 with
            | ',' :: r4 => jpObjItems fuel (skipWs r4) (acc ++ [(k, v)])
            | '\x7d' :: r4 => some (.obj (acc ++ [(k, v)]), r4)
            | _ => none
        | _ => none
    | _ => none

/-- Element list of a JSON array after at least one element is known to follow. -/
def jpArrItems : Nat → List Char → List Json → Option (Json × List Char)
  | 0, _, _ => none
  | fuel + 1, cs, acc =>
    match jpVal fuel cs with
    | none => none
    | some (v, r1) =>
      match skipWs r1 with
      | ',' :: r2 => jpArrItems fuel r2 (acc ++ [v])
      | ']' :: r2 => some (.arr (acc ++ [v]), r2)
      | _ => none

end

/-- Model of Python `json.loads`: parse one JSON value with only whitespace
around it, else fail. -/
def jsonParse (s : String) : Option Json :=
  match jpVal (2 * s.data.length + 3) s.data with
  | some (v, rest) => if skipWs rest = [] then some v else none
  | none => none

/-- String body scanner of the `ast.literal_eval` model: Python string literals
close on the quote character that opened them, reject raw line breaks, and keep
unknown backslash escapes as a backslash followed by the character. -/
def plStringGo (q : Char) : List Char → List Char → Option (String × List Char)
  | [], _ => none
  | c :: rest, acc =>
    if c = q then some (String.mk acc.reverse, rest)
    else if c = bslash then
      match rest with
      | [] => none
      | e :: rest2 =>
        if e = '"' then plStringGo q rest2 ('"' :: acc)
        else if e = squote then plStringGo q rest2 (squote :: acc)
        else if e = bslash then plStringGo q rest2 (bslash :: acc)
        else if e = 'n' then plStringGo q rest2 ('\n' :: acc)
        else if e = 't' then plStringGo q rest2 ('\t' :: acc)
        else if e = 'r' then plStringGo q rest2 ('\r' :: acc)
        else plStringGo q rest2 (e :: bslash :: acc)
    else if c = '\n' ∨ c = '\r' then none
    else plStringGo q rest (c :: acc)

/-- Python literal number (allows a `+` sign in addition to `-`). -/
def plNumber (cs : List Char) : Option (Json × List Char) :=
  match cs with
  | '+' :: r => jpNumber r
  | _ => jpNumber cs

mutual

/-- Fueled parser modelling `ast.literal_eval` on the fragment of Python
literals this pipeline can meet: dicts with string keys, lists, strings in
either quote style, numbers, `True`/`False`/`None`; trailing commas are
accepted.  Tuples, sets, non-string dict keys and string concatenation are not
modelled (every concrete input fed to this model below is also rejected by
Python itself, each with a `SyntaxError`/`ValueError`). -/
def plVal : Nat → List Char → Option (Json × List Char)
  | 0, _ => none
  | fuel + 1, cs =>
    match skipWs cs with
    | '\x7b' :: rest =>
      match skipWs rest with
      | '\x7d' :: r => some (.obj [], r)
      | cs2 => plObjItems fuel cs2 []
    | '[' :: rest =>
      match skipWs rest with
      | ']' :: r => some (.arr [], r)
      | cs2 => plArrItems fuel cs2 []
    | '"' :: rest =>
      match plStringGo '"' rest [] with
      | some (s, r) => some (.str s, r)
      | none => none
    | c :: rest =>
      if c = squote then
        match plStringGo squote rest [] with
        | some (s, r) => some (.str s, r)
        | none => none
      else
        match c :: rest with
        | 'T' :: 'r' :: 'u' :: 'e' :: r => some (.bool true, r)
        | 'F' :: 'a' :: 'l' :: 's' :: 'e' :: r => some (.bool false, r)
        | 'N' :: 'o' :: 'n' :: 'e' :: r => some (.null, r)
        | cs1 => plNumber cs1
    | [] => none

/-- Member list of a Python dict literal (string keys only; trailing comma ok). -/
def plObjItems : Nat → List Char → JObj → Option (Json × List Char)
  | 0, _, _ => none
  | fuel + 1, cs, acc =>
    match plVal fuel cs with
    | some (.str k, r1) =>
      match skipWs r1 with
      | ':' :: r2 =>
        match plVal fuel r2 with
        | none => none
        | some (v, r3) =>
          match skipWs r3 with
          | ',' :: r4 =>
            match skipWs r4 with
            | '\x7d' :: r5 => some (.obj (acc ++ [(k, v)]), r5)
            | cs2 => plObjItems fuel cs2 (acc ++ [(k, v)])
          | '\x7d' :: r4 => some (.obj (acc ++ [(k, v)]), r4)
          | _ => none
      | _ => none
    | _ => none

/-- Element list of a Python list literal (trailing comma ok). -/
def plArrItems : Nat → List Char → List Json → Option (Json × List Char)
  | 0, _, _ => none
  | fuel + 1, cs, acc =>
    match plVal fuel cs with
    | none => none
    | some (v, r1) =>
      match skipWs r1 with
      | ',' :: r2 =>
        match skipWs r2 with
        | ']' :: r3 => some (.arr (acc ++ [v]), r3)
        | cs2 => plArrItems fuel cs2 (acc ++ [v])
      | ']' :: r2 => some (.arr (acc ++ [v]), r2)
      | _ => none

end

/-- Model of `ast.literal_eval` applied to a whole string. -/
def literalEval (s : String) : Option Json :=
  match plVal (2 * s.data.length + 3) s.data with
  | some (v, rest) => if skipWs rest = [] then some v else none
  | none => none

/-- Does `needle` occur at the head of `hay`? -/
def leadMatch : List Char → List Char → Bool
  | [], _ => true
  | _ :: _, [] => false
  | n :: ns, h :: hs => n == h && leadMatch ns hs

/-- Python `str.find`: index of the first occurrence of `needle`, if any. -/
def findSub (needle : List Char) : List Char → Option Nat
  | [] => if needle.isEmpty then some 0 else none
  | h :: hs =>
    if leadMatch needle (h :: hs) then some 0
    else (findSub needle hs).map (· + 1)

/-- Python `str.find` with a start index (`text.find(needle, start)`). -/
def findSubFrom (needle hay : List Char) (start : Nat) : Option Nat :=
  (findSub needle (hay.drop start)).map (· + start)

/-- Python slice `s[a:b]`. -/
def substr (cs : List Char) (a b : Nat) : List Char := (cs.take b).drop a

/-- Python `str.strip()`. -/
def pyStrip (cs : List Char) : List Char :=
  (((cs.dropWhile isPySpace).reverse).dropWhile isPySpace).reverse

/-- The three-backtick fence marker. -/
def fence3 : List Char := [btick, btick, btick]

/-- The `js`-tagged fence opener searched for first by `try_fenced`. -/
def fenceJson : List Char := fence3 ++ ['j', 's', 'o', 'n']

/-- Second half of `try_fenced` in `get_threat_forecast`: any fenced block. -/
def tryFencedAny (text : List Char) : Option (List Char) :=
  match findSub fence3 text with
  | some i =>
    match findSubFrom fence3 text (i + 3) with
    | some e => some (pyStrip (substr text (i + 3) e))
    | none => none
  | none => none

/-- `try_fenced` of `get_threat_forecast`: prefer a ```json fence, then any
fenced block, returning the stripped interior. -/
def tryFenced (text : List Char) : Option (List Char) :=
  match findSub fenceJson text with
  | some i =>
    match findSubFrom fence3 text (i + 7) with
    | some e => some (pyStrip (substr text (i + 7) e))
    | none => tryFencedAny text
  | none => tryFencedAny text

/-- Scanning loop of `extract_first_braced` after the first `{` was found:
`depth` starts at 1; backslash sets an escape flag even outside strings; inside
a string only the matching quote character ends it; braces met outside strings
move the depth, and the span is returned once depth returns to 0.  `acc` holds
the scanned characters in reverse. -/
def extractAfter : List Char → List Char → Nat → Bool → Char → Bool → Option (List Char)
  | [], _, _, _, _, _ => none
  | ch :: rest, acc, depth, inStr, qc, esc =>
    if esc then extractAfter rest (ch :: acc) depth inStr qc false
    else if ch = bslash then extractAfter rest (ch :: acc) depth inStr qc true
    else if inStr then
      if ch = qc then extractAfter rest (ch :: acc) depth false qc false
      else extractAfter rest (ch :: acc) depth true qc false
    else if ch = '"' ∨ ch = squote then extractAfter rest (ch :: acc) depth true ch false
    else if ch = '\x7b' then extractAfter rest (ch :: acc) (depth + 1) false qc false
    else if ch = '\x7d' then
      if depth = 1 then some (ch :: acc).reverse
      else extractAfter rest (ch :: acc) (depth - 1) false qc false
    else extractAfter rest (ch :: acc) depth false qc false

/-- `extract_first_braced` of `get_threat_forecast`: everything before the
first `{` is skipped without any string tracking, then the quoted-string-aware
depth scan extracts the first balanced `{...}` span. -/
def extractFirstBraced : List Char → Option (List Char)
  | [] => none
  | c :: rest =>
    if c = '\x7b' then extractAfter rest [c] 1 false ' ' false
    else extractFirstBraced rest

/-- Scanning loop of `find_largest_balanced`: a full-text scan that tracks
quoted strings from the very beginning, collects every top-level balanced
`{...}` span into `results` (in completion order), resets negative depth to 0,
and accumulates the current span in `cur` (reversed). -/
def flbGo : List Char → Bool → Char → Bool → Nat → List Char → List (List Char) → List (List Char)
  | [], _, _, _, _, _, results => results.reverse
  | ch :: rest, inStr, qc, esc, depth, cur, results =>
    let cur1 := if 1 ≤ depth then ch :: cur else cur
    if esc then flbGo rest inStr qc false depth cur1 results
    else if ch = bslash then flbGo rest inStr qc true depth cur1 results
    else if inStr then
      if ch = qc then flbGo rest false qc false depth cur1 results
      else flbGo rest true qc false depth cur1 results
    else if ch = '"' ∨ ch = squote then flbGo rest true ch false depth cur1 results
    else if ch = '\x7b' then
      if depth = 0 then flbGo rest false qc false 1 [ch] results
      else flbGo rest false qc false (depth + 1) cur1 results
    else if ch = '\x7d' then
      if depth = 0 then flbGo rest false qc false 0 cur results
      else if depth = 1 then flbGo rest false qc false 0 [] (cur1.reverse :: results)
      else flbGo rest false qc false (depth - 1) cur1 results
    else flbGo rest false qc false depth cur1 results

/-- Every top-level balanced `{...}` span of the text, in completion order
(the `results` list built by `find_largest_balanced`). -/
def balancedSpans (cs : List Char) : List (List Char) :=
  flbGo cs false ' ' false 0 [] []

/-- Python `max(results, key=len)`: the first span of maximal length. -/
def maxByLen : List (List Char) → Option (List Char)
  | [] => none
  | x :: xs => some (xs.foldl (fun best y => if best.length < y.length then y else best) x)

/-- `find_largest_balanced` of `get_threat_forecast`: collect all top-level
balanced spans and return the longest (first of maximal length), if any. -/
def findLargestBalanced (cs : List Char) : Option (List Char) :=
  maxByLen (balancedSpans cs)

/-- Fueled scanner behind `stripTrailingCommas`; the fuel is only a
termination device (one unit per emitted character suffices). -/
def stcGo : Nat → List Char → List Char
  | 0, cs => cs
  | _ + 1, [] => []
  | fuel + 1, c :: rest =>
    if c = ',' then
      match rest.dropWhile isPySpace with
      | d :: rest2 =>
        if d = ']' ∨ d = '\x7d' then d :: stcGo fuel rest2
        else c :: stcGo fuel rest
      | [] => c :: stcGo fuel rest
    else c :: stcGo fuel rest

/-- Model of `re.sub(r",\s*(\]|\})", r"\1", s)`: every comma followed by
optional whitespace and a closing bracket or brace is replaced by that
closer; scanning resumes after each replacement. -/
def stripTrailingCommas (cs : List Char) : List Char := stcGo cs.length cs

/-- Python `s.replace(squote, dquote)`: every single quote becomes a double
quote. -/
def quoteReplace (cs : List Char) : List Char :=
  cs.map (fun c => if c = squote then '"' else c)

/-- Model of `re.sub(r"^```[a-zA-Z]*\n", '', s)`: an anchored fence-opener line
is removed if present. -/
def stripFenceHead (cs : List Char) : List Char :=
  match cs with
  | a :: b :: c :: rest =>
    if a = btick ∧ b = btick ∧ c = btick then
      match rest.dropWhile Char.isAlpha with
      | '\n' :: rest2 => rest2
      | _ => cs
    else cs
  | _ => cs

/-- Python `s.rsplit(sep, 1)[0]`: everything before the last occurrence of
`sep` (the whole string when `sep` does not occur). -/
def beforeLast (sep cs : List Char) : List Char :=
  match findSub sep cs.reverse with
  | none => cs
  | some _ =>
    let rec lastIdx (l : List Char) (i : Nat) (best : Option Nat) : Option Nat :=
      match l with
      | [] => best
      | _ :: t =>
        if leadMatch sep l then lastIdx t (i + 1) (some i)
        else lastIdx t (i + 1) best
    match lastIdx cs 0 none with
    | some i => cs.take i
    | none => cs

/-- Depth counter of `autoclose_and_clean`: count unmatched `{`/`[` while
ignoring quoted strings, clamping each depth at 0 from below. -/
def countDepths : List Char → Nat → Nat → Bool → Char → Bool → Nat × Nat
  | [], bd, kd, _, _, _ => (bd, kd)
  | ch :: rest, bd, kd, inStr, qc, esc =>
    if esc then countDepths rest bd kd inStr qc false
    else if ch = bslash then countDepths rest bd kd inStr qc true
    else if inStr then
      if ch = qc then countDepths rest bd kd false qc false
      else countDepths rest bd kd true qc false
    else if ch = '"' ∨ ch = squote then countDepths rest bd kd true ch false
    else if ch = '\x7b' then countDepths rest (bd + 1) kd false qc false
    else if ch = '\x7d' then countDepths rest (bd - 1) kd false qc false
    else if ch = '[' then countDepths rest bd (kd + 1) false qc false
    else if ch = ']' then countDepths rest bd (kd - 1) false qc false
    else countDepths rest bd kd false qc false

/-- Comma-stripped, fence-stripped text with the computed closers appended: the
candidate `autoclose_and_clean` tries to parse. -/
def autocloseCandidate (s : List Char) : List Char :=
  let s1 :=
    if leadMatch fence3 (pyStrip s) then beforeLast fence3 (stripFenceHead s)
    else s
  let s2 := stripTrailingCommas s1
  let (bd, kd) := countDepths s2 0 0 false ' ' false
  s2 ++ List.replicate kd ']' ++ List.replicate bd '\x7d'

/-- `autoclose_and_clean` of `get_threat_forecast`: strip a leading markdown
fence if present, strip trailing commas, append the missing closers counted by
the quoted-string-aware depth scan, and return the first of the candidate and
its single-to-double-quote substitution that parses as strict JSON, if either
does. -/
def autocloseAndClean (s : List Char) : Option (List Char) :=
  let candidate := autocloseCandidate s
  if (jsonParse (String.mk candidate)).isSome then some candidate
  else
    let c2 := quoteReplace candidate
    if (jsonParse (String.mk c2)).isSome then some c2 else none

/-- The error raised when every recovery strategy failed.  `savedPath` is the
file path embedded in the raised message (if any); `snippet` is the leading
2000 characters of the offending text. -/
structure RaisedError where
  savedPath : Option String
  snippet : String

/-- The file name used by the terminal-failure branch (the timestamp in the
real name is irrelevant to the claims and elided). -/
def dumpFileName : String := "llm_responses/response.txt"

/-- Body of the terminal-failure `try` block: write the raw text to disk, then
raise a `ValueError` whose message carries the saved path and a snippet.  The
first component is the persisted file (name and content); the second is the
raised exception. -/
def terminalTry (responseText : String) : (String × String) × RaisedError :=
  ((dumpFileName, responseText),
   { savedPath := some dumpFileName, snippet := String.mk (responseText.data.take 2000) })

/-- The whole terminal-failure block of `get_threat_forecast`: the `try` body
persists the raw text and raises a `ValueError` carrying the saved path, but
that very `raise` is caught by the enclosing `except Exception`, which then
raises the second `ValueError` (the "could not save raw response" message,
without any path).  The persisted file from the first component survives. -/
def terminalFailure (responseText : String) : Option (String × String) × RaisedError :=
  match terminalTry responseText with
  | (saved, _raised) =>
    (some saved, { savedPath := none, snippet := String.mk (responseText.data.take 2000) })

/-- First `Option` alternative. -/
def orO (a b : Option Json) : Option Json :=
  match a with
  | some v => some v
  | none => b

/-- The span-isolation step of the cascade: `json_text = try_fenced(...)`,
falling back to `extract_first_braced` when the fenced result is falsy (absent
or the empty string). -/
def isolateSpan (cs : List Char) : Option (List Char) :=
  match tryFenced cs with
  | some t => if t.isEmpty then extractFirstBraced cs else some t
  | none => extractFirstBraced cs

/-- The isolated span with Python truthiness folded in: `json_text` when it is
a non-empty string, else nothing. -/
def isolateTruthy (cs : List Char) : Option (List Char) :=
  match isolateSpan cs with
  | some t => if t.isEmpty then none else some t
  | none => none

/-- The JSON-recovery cascade of `get_threat_forecast` (lines 292-521): strict
parse; span isolation (fenced extraction, else first-braced extraction);
strict/literal parse of the isolated span; largest-balanced-block search with
strict/literal parse of the longest span only; the regex repairs
(trailing-comma strip, then quote substitution) only when no balanced span was
found; auto-close of the isolated span (or of the whole text when no span was
isolated); terminal failure otherwise.  Returns the recovery outcome together
with the persisted raw-text dump, if any. -/
def recoverFull (responseText : String) : Except RaisedError Json × Option (String × String) :=
  match jsonParse responseText with
  | some v => (.ok v, none)
  | none =>
    let cs := responseText.data
    let parsed : Option Json :=
      match isolateTruthy cs with
      | none => none
      | some t =>
        match jsonParse (String.mk t) with
        | some v => some v
        | none =>
          match literalEval (String.mk t) with
          | some v => some v
          | none =>
            match findLargestBalanced cs with
            | some b => orO (jsonParse (String.mk b)) (literalEval (String.mk b))
            | none =>
              let cleaned := stripTrailingCommas t
              orO (jsonParse (String.mk cleaned)) (jsonParse (String.mk (quoteReplace cleaned)))
    match parsed with
    | some v => (.ok v, none)
    | none =>
      let base : List Char :=
        match isolateTruthy cs with
        | some t => t
        | none => cs
      let parsed2 : Option Json :=
        match autocloseAndClean base with
        | some c => orO (jsonParse (String.mk c)) (literalEval (String.mk c))
        | none => none
      match parsed2 with
      | some v => (.ok v, none)
      | none =>
        match terminalFailure responseText with
        | (saved, err) => (.error err, saved)

/-- The recovered value alone. -/
def recover (responseText : String) : Except RaisedError Json :=
  (recoverFull responseText).1

/-! ### Python dynamic-value helpers used by the post-processing code -/

mutual

/-- Python `==` on the values met here (mixed-type numeric equality is not
needed by any claim and is modelled as `false`). -/
def jbeq : Json → Json → Bool
  | .null, .null => true
  | .bool a, .bool b => a == b
  | .int a, .int b => a == b
  | .float a, .float b => a == b
  | .str a, .str b => a == b
  | .arr a, .arr b => jbeqL a b
  | .obj a, .obj b => jbeqO a b
  | _, _ => false

/-- Elementwise `jbeq` on lists. -/
def jbeqL : List Json → List Json → Bool
  | [], [] => true
  | a :: as1, b :: bs => jbeq a b && jbeqL as1 bs
  | _, _ => false

/-- Pairwise `jbeq` on ordered key-value lists. -/
def jbeqO : JObj → JObj → Bool
  | [], [] => true
  | (k1, v1) :: as1, (k2, v2) :: bs => k1 == k2 && jbeq v1 v2 && jbeqO as1 bs
  | _, _ => false

end

/-- Python `x == "lit"` for a dynamic `x`. -/
def jeqStr (j : Json) (s : String) : Bool :=
  match j with
  | .str t => t == s
  | _ => false

/-- Python truthiness. -/
def truthy : Json → Bool
  | .null => false
  | .bool b => b
  | .int n => n != 0
  | .float q => q != 0
  | .str s => !s.isEmpty
  | .arr xs => !xs.isEmpty
  | .obj kvs => !kvs.isEmpty

/-- Dict lookup (first binding wins, as keys are unique by construction). -/
def lookupKV : JObj → String → Option Json
  | [], _ => none
  | (k1, v1) :: rest, k => if k1 = k then some v1 else lookupKV rest k

/-- Python `k in d`. -/
def hasKeyKV (kvs : JObj) (k : String) : Bool := (lookupKV kvs k).isSome

/-- Python `d.get(k, dflt)`. -/
def getKV (kvs : JObj) (k : String) (dflt : Json) : Json := (lookupKV kvs k).getD dflt

/-- Python `d[k] = v`: update in place if present, else append. -/
def setKeyKV : JObj → String → Json → JObj
  | [], k, v => [(k, v)]
  | (k1, v1) :: rest, k, v =>
    if k1 = k then (k1, v) :: rest else (k1, v1) :: setKeyKV rest k v

/-- Truncation toward zero, the behaviour of Python `int()` on a float. -/
def truncQ (q : Rat) : Int := if 0 ≤ q then ⌊q⌋ else -⌊-q⌋

/-- Python `int(str)`: strip whitespace, optional sign, then digits only. -/
def pyIntStr (s : String) : Option Int :=
  let cs := pyStrip s.data
  let (neg, cs1) : Bool × List Char :=
    match cs with
    | c :: r => if c = '-' then (true, r) else if c = '+' then (false, r) else (false, cs)
    | [] => (false, cs)
  if cs1 ≠ [] ∧ cs1.all Char.isDigit then
    some (if neg then -(digitsToNat cs1 : Int) else (digitsToNat cs1 : Int))
  else none

/-- Python `int(x)` on a dynamic value (`TypeError`/`ValueError` is `none`). -/
def pyInt : Json → Option Int
  | .int n => some n
  | .float q => some (truncQ q)
  | .bool b => some (if b then 1 else 0)
  | .str s => pyIntStr s
  | _ => none

/-- Python `float(str)`: strip whitespace, sign, digits with optional fraction
and exponent (leading zeros are fine here, unlike in JSON). -/
def pyFloatStr (s : String) : Option Rat :=
  let cs := pyStrip s.data
  let (neg, cs1) : Bool × List Char :=
    match cs with
    | c :: r => if c = '-' then (true, r) else if c = '+' then (false, r) else (false, cs)
    | [] => (false, cs)
  let ip := cs1.takeWhile Char.isDigit
  let cs2 := cs1.dropWhile Char.isDigit
  let (fp, cs3) : List Char × List Char :=
    match cs2 with
    | '.' :: r => (r.takeWhile Char.isDigit, r.dropWhile Char.isDigit)
    | _ => ([], cs2)
  if ip = [] ∧ fp = [] then none
  else
    let v : Rat := (digitsToNat ip : Rat) + (digitsToNat fp : Rat) / ((10 : Rat) ^ fp.length)
    let (v2, rest, _) := jpExpo v cs3
    if rest = [] then some (if neg then -v2 else v2) else none

/-- Python `float(x)` on a dynamic value. -/
def pyFloat : Json → Option Rat
  | .float q => some q
  | .int n => some (n : Rat)
  | .bool b => some (if b then 1 else 0)
  | .str s => pyFloatStr s
  | _ => none

/-- Python `str.title()` over the ASCII range: a letter is upper-cased when the
previous character is not a letter, lower-cased otherwise. -/
def pyTitleGo : List Char → Bool → List Char
  | [], _ => []
  | c :: rest, prevCased =>
    if c.isAlpha then (if prevCased then c.toLower else c.toUpper) :: pyTitleGo rest true
    else c :: pyTitleGo rest false

/-- Python `str.title()`. -/
def pyTitle (s : String) : String := String.mk (pyTitleGo s.data false)

/-- Python `s.replace(dash, space)`. -/
def dashToSpace (s : String) : String :=
  String.mk (s.data.map (fun c => if c = '-' then ' ' else c))

/-- Round half to even at integer precision, the rounding of Python `round`. -/
def rhe (q : Rat) : Int :=
  if q - ⌊q⌋ < 1 / 2 then ⌊q⌋
  else if 1 / 2 < q - ⌊q⌋ then ⌊q⌋ + 1
  else if ⌊q⌋ % 2 = 0 then ⌊q⌋ else ⌊q⌋ + 1

/-- Python `round(x, n)` modelled exactly on rationals. -/
def roundN (n : Nat) (q : Rat) : Rat := (rhe (q * 10 ^ n) : Rat) / 10 ^ n

/-- Zero-padded decimal digits. -/
def padZeros (s : String) (k : Nat) : String :=
  String.mk (List.replicate (k - s.length) '0') ++ s

/-- Python `repr` of a float whose value is a short exact decimal (every float
rendered in this development is of that form): minimal decimal digits with at
least one fractional digit. -/
def floatRepr (q : Rat) : String :=
  let neg := q.num < 0
  let a : Rat := if q.num < 0 then -q else q
  let k := (((List.range 13).find? (fun k => (a * 10 ^ k).den = 1))).getD 0
  let m := (a * 10 ^ k).num.toNat
  let ip := m / 10 ^ k
  let fp := m % 10 ^ k
  let frac := if k = 0 then "0" else padZeros (toString fp) k
  (if neg then "-" else "") ++ toString ip ++ "." ++ frac

/-- Python f-string rendering of the dynamic values a signal label can be
(container rendering is never exercised and is abbreviated). -/
def pyFStr : Json → String
  | .str s => s
  | .int n => toString n
  | .float q => floatRepr q
  | .bool b => if b then "True" else "False"
  | .null => "None"
  | .arr _ => "[...]"
  | .obj _ => "..."

/-- Stable insertion keeping a descending-by-score order: the new element goes
after every element of greater-or-equal score. -/
def insDesc {α : Type} (score : α → Rat) (x : α) : List α → List α
  | [] => [x]
  | y :: ys => if score y < score x then x :: y :: ys else y :: insDesc score x ys

/-- Python `sorted(l, key=score, reverse=True)`: stable descending sort. -/
def sortDesc {α : Type} (score : α → Rat) (l : List α) : List α :=
  l.foldl (fun acc x => insDesc score x acc) []

/-! ### Post-processing blocks of `get_threat_forecast` (lines 523-604) -/

/-- `int(p.get('expected_count', 0))` for one prediction: `none` is the raised
exception (a non-dict prediction or a non-numeric value). -/
def expCount (p : Json) : Option Int :=
  match p with
  | .obj kvs => pyInt (getKV kvs "expected_count" (.int 0))
  | _ => none

/-- The `int(...)` conversions of the summed generator, first exception wins
(`none` aborts the whole sum, as the exception does in Python). -/
def expCounts : List Json → Option (List Int)
  | [] => some []
  | p :: ps =>
    match expCount p with
    | none => none
    | some v =>
      match expCounts ps with
      | none => none
      | some l => some (v :: l)

/-- Block 1 (`monthly_predicted_attacks` fallback): when the key is absent, sum
`int(p.get('expected_count', 0))` over the first four predictions; the `try`
around the whole sum turns any failure (a non-dict prediction, a non-numeric
`expected_count`, a non-list `predictions` value) into a total of 0. -/
def pp1 (fd : JObj) : JObj :=
  if hasKeyKV fd "monthly_predicted_attacks" then fd
  else
    let monthly : Int :=
      match getKV fd "predictions" (.arr []) with
      | .arr ps =>
        match expCounts (ps.take 4) with
        | some l => l.sum
        | none => 0
      | _ => 0
    setKeyKV fd "monthly_predicted_attacks" (.int monthly)

/-- Threat-type key derived from one signal dict, following the
tag/cve/other-type cascade; the outer `Option` is an uncaught Python exception
(`.title()` on a non-string), the inner one is "no key" (`key = None`). -/
def sigKeyOf (s : JObj) : Option (Option String) :=
  let sType := getKV s "signal_type" .null
  let sId := getKV s "id" .null
  if jeqStr sType "tag" ∧ truthy sId then
    match sId with
    | .str t => some (some (pyTitle t))
    | _ => none
  else if jeqStr sType "cve" ∧ truthy sId then some (some "CVE")
  else if truthy sType then
    match sType with
    | .str t => some (some (pyTitle t))
    | _ => none
  else some none

/-- Accumulate a score into the insertion-ordered `agg_types` dict. -/
def bumpKV : List (String × Rat) → String → Rat → List (String × Rat)
  | [], k, sc => [(k, sc)]
  | (k1, v1) :: rest, k, sc =>
    if k1 = k then (k1, v1 + sc) :: rest else (k1, v1) :: bumpKV rest k sc

/-- One signal of the block 2 inner loop: a non-dict signal raises; a keyless
signal contributes nothing; otherwise its `float(score)` is accumulated. -/
def aggSigStep (a : List (String × Rat)) (sj : Json) : Option (List (String × Rat)) :=
  match sj with
  | .obj s =>
    match sigKeyOf s with
    | none => none
    | some none => some a
    | some (some k) =>
      match pyFloat (getKV s "score" (.int 0)) with
      | some sc => some (bumpKV a k sc)
      | none => none
  | _ => none

/-- The inner `for s in p.get('top_signals', [])` loop of block 2. -/
def aggSigsFold : List Json → List (String × Rat) → Option (List (String × Rat))
  | [], a => some a
  | sj :: rest, a =>
    match aggSigStep a sj with
    | none => none
    | some a2 => aggSigsFold rest a2

/-- Fold the signals of one prediction into `agg_types` (block 2 inner loop).
Iterating a non-list `top_signals` value follows Python: an empty string or
empty dict iterates zero times, any other non-list raises. -/
def aggSignalsOfPred (agg : List (String × Rat)) (p : Json) : Option (List (String × Rat)) :=
  match p with
  | .obj kvs =>
    match getKV kvs "top_signals" (.arr []) with
    | .arr sigs => aggSigsFold sigs agg
    | .str s => if s.isEmpty then some agg else none
    | .obj [] => some agg
    | _ => none
  | _ => none

/-- The outer `for p in forecast_data.get('predictions', [])` loop of block 2. -/
def aggSignalsList : List Json → List (String × Rat) → Option (List (String × Rat))
  | [], agg => some agg
  | p :: ps, agg =>
    match aggSignalsOfPred agg p with
    | none => none
    | some a2 => aggSignalsList ps a2

/-- The full `agg_types` accumulation over the `predictions` value (block 2);
uncaught exceptions are `none`. -/
def aggSignals (predsVal : Json) : Option (List (String × Rat)) :=
  match predsVal with
  | .arr ps => aggSignalsList ps []
  | .str s => if s.isEmpty then some [] else none
  | .obj [] => some []
  | _ => none

/-- Normalisation tail of block 2: when the accumulated total is positive, emit
`{threat_type, probability}` objects sorted by score descending with each
probability `round(v / total, 3)`; otherwise the empty list. -/
def normTypes (agg : List (String × Rat)) : List Json :=
  let total := (agg.map (·.2)).sum
  if 0 < total then
    (sortDesc (·.2) agg).map (fun kv =>
      .obj [("threat_type", .str kv.1), ("probability", .float (roundN 3 (kv.2 / total)))])
  else []

/-- Block 2 (`predicted_threat_types` fallback): derive the distribution from
`top_signals` when the key is absent.  This block has no `try` guard, so an
exception (`none`) aborts the whole post-processing. -/
def pp2 (fd : JObj) : Option JObj :=
  if hasKeyKV fd "predicted_threat_types" then some fd
  else
    match aggSignals (getKV fd "predictions" (.arr [])) with
    | some agg => some (setKeyKV fd "predicted_threat_types" (.arr (normTypes agg)))
    | none => none

/-- One entry of block 3's `signal_map`. -/
structure KSig where
  label : Json
  stype : Json
  score : Rat

/-- Label construction of block 3 (`f"{id}"` for CVEs, de-hyphenated title case
for tags, the raw `id`-or-`signal_type` value otherwise). -/
def labelOf (s : JObj) : Option Json :=
  let sId := getKV s "id" .null
  let sType := getKV s "signal_type" .null
  let base : Json := if truthy sId then sId else sType
  if jeqStr sType "cve" ∧ truthy sId then some (.str (pyFStr sId))
  else if jeqStr sType "tag" ∧ truthy sId then
    match sId with
    | .str t => some (.str (pyTitle (dashToSpace t)))
    | _ => none
  else some base

/-- Is the `(signal_type, id)` key already present in `signal_map`? -/
def ksReadMem (m : List ((Json × Json) × KSig)) (k : Json × Json) : Bool :=
  m.any (fun e => jbeq e.1.1 k.1 && jbeq e.1.2 k.2)

/-- Add a score to the existing entry of a key. -/
def ksBump : List ((Json × Json) × KSig) → (Json × Json) → Rat → List ((Json × Json) × KSig)
  | [], _, _ => []
  | (k1, v1) :: rest, k, sc =>
    if jbeq k1.1 k.1 && jbeq k1.2 k.2 then (k1, { v1 with score := v1.score + sc }) :: rest
    else (k1, v1) :: ksBump rest k sc

/-- Fold the signals of one prediction into `signal_map` (block 3 inner loop). -/
def ksOfPred (m : List ((Json × Json) × KSig)) (p : Json) : Option (List ((Json × Json) × KSig)) :=
  match p with
  | .obj kvs =>
    match getKV kvs "top_signals" (.arr []) with
    | .arr sigs =>
      sigs.foldlM (fun acc sj =>
        match sj with
        | .obj s =>
          let key : Json × Json := (getKV s "signal_type" .null, getKV s "id" .null)
          match pyFloat (getKV s "score" (.int 0)) with
          | none => none
          | some sc =>
            if ksReadMem acc key then some (ksBump acc key sc)
            else
              match labelOf s with
              | some lbl => some (acc ++ [(key, ⟨lbl, getKV s "signal_type" .null, sc⟩)])
              | none => none
        | _ => none) m
    | .str s => if s.isEmpty then some m else none
    | .obj [] => some m
    | _ => none
  | _ => none

/-- The full `signal_map` accumulation of block 3 over the `predictions`
value; uncaught exceptions are `none`. -/
def ksAgg (predsVal : Json) : Option (List ((Json × Json) × KSig)) :=
  match predsVal with
  | .arr ps => ps.foldlM ksOfPred []
  | .str s => if s.isEmpty then some [] else none
  | .obj [] => some []
  | _ => none

/-- Block 3 (`key_signals_user_friendly` fallback): merge signals by
`(signal_type, id)`, take the top 8 by summed score, renormalise to sum at most
one (with the `or 1` guard against a zero sum).  Unguarded, like block 2. -/
def pp3 (fd : JObj) : Option JObj :=
  if hasKeyKV fd "key_signals_user_friendly" then some fd
  else
    match ksAgg (getKV fd "predictions" (.arr [])) with
    | none => none
    | some m =>
      let ks := (sortDesc (fun x => x.score) (m.map (·.2))).take 8
      let ssum0 := (ks.map (·.score)).sum
      let ssum := if ssum0 = 0 then 1 else ssum0
      let ksJ := ks.map (fun x =>
        Json.obj [("label", x.label), ("type", x.stype), ("score", .float (roundN 3 (x.score / ssum)))])
      some (setKeyKV fd "key_signals_user_friendly" (.arr ksJ))

/-- Rendering of a model date (a day count) as the `isoformat` string: dates
are modelled as days since an epoch, rendered injectively. -/
def dayStr (d : Nat) : String := toString d

/-- The `utcnow().isoformat()` stamp written into metadata, derived from the
same model clock. -/
def genTimestamp (today : Nat) : String := "T" ++ toString today

/-- The week-forcing loop: prediction `i` gets
`(today + timedelta(weeks=i)).isoformat()`, i.e. day `today + 7 * i`; a
non-dict entry raises inside the inner `try` and is left unchanged. -/
def forceWeeks (today : Nat) : List Json → Nat → List Json
  | [], _ => []
  | p :: ps, i =>
    (match p with
     | .obj kvs => .obj (setKeyKV kvs "week_start" (.str (dayStr (today + 7 * i))))
     | _ => p) :: forceWeeks today ps (i + 1)

/-- Metadata stamping at the end of block 4; a non-dict `metadata` value raises
into the outer `except`, losing only the stamp. -/
def pp4meta (fd : JObj) (today : Nat) : JObj :=
  match getKV fd "metadata" (.obj []) with
  | .obj kvs =>
    setKeyKV fd "metadata" (.obj (setKeyKV kvs "forecast_generated_at_utc" (.str (genTimestamp today))))
  | _ => fd

/-- Block 4 (week forcing): overwrite every prediction's `week_start` with
`today + 7 * i` and stamp metadata; the outer `try ... except: pass` makes a
non-iterable `predictions` value skip the whole block, while an iterable of
non-dicts (a string, a dict iterating its keys) still reaches the stamping. -/
def pp4 (fd : JObj) (today : Nat) : JObj :=
  match lookupKV fd "predictions" with
  | some (.arr ps) => pp4meta (setKeyKV fd "predictions" (.arr (forceWeeks today ps 0))) today
  | some (.str _) => pp4meta fd today
  | some (.obj _) => pp4meta fd today
  | some _ => fd
  | none => pp4meta fd today

/-- The whole post-processing tail of `get_threat_forecast` (lines 523-604) on
a parsed dict; `none` is an uncaught exception escaping from one of the two
unguarded derivation blocks. -/
def postprocess (fd : JObj) (today : Nat) : Option JObj :=
  match pp2 (pp1 fd) with
  | none => none
  | some b =>
    match pp3 b with
    | none => none
    | some c => some (pp4 c today)

/-! ### Feature records, serialization, token estimate and compression -/

/-- One `top_cves` entry of a weekly feature record. -/
structure CveEntry where
  id : String
  occurrences : Int
  cvss : Rat

/-- One `top_countries` entry. -/
structure CountryEntry where
  code : String
  threatCount : Int

/-- A weekly feature record as constructed by `build_forecast_features` (and
by the summary branch of `compress_feature_records`); all fields are always
present, in this fixed insertion order. -/
structure FeatureRecord where
  region : String
  week_start : String
  count_last_week : Int
  count_4week_avg : Rat
  growth_rate : Rat
  mean_cvss : Rat
  unique_cves : Int
  unique_countries : Int
  top_countries : List CountryEntry
  top_tags : List String
  top_cves : List CveEntry

/-- All-empty record (used only as the impossible default of a head lookup). -/
def dfltRec : FeatureRecord :=
  { region := "", week_start := "", count_last_week := 0, count_4week_avg := 0,
    growth_rate := 0, mean_cvss := 0, unique_cves := 0, unique_countries := 0,
    top_countries := [], top_tags := [], top_cves := [] }

/-- The dict a `top_cves` entry serializes as. -/
def cveToJson (c : CveEntry) : Json :=
  .obj [("id", .str c.id), ("occurrences", .int c.occurrences), ("cvss", .float c.cvss)]

/-- The dict a `top_countries` entry serializes as. -/
def countryToJson (c : CountryEntry) : Json :=
  .obj [("code", .str c.code), ("threat_count", .int c.threatCount)]

/-- The dict a feature record serializes as (key order is the construction
order in `build_forecast_features`). -/
def recToJson (r : FeatureRecord) : Json :=
  .obj [("region", .str r.region), ("week_start", .str r.week_start),
        ("count_last_week", .int r.count_last_week),
        ("count_4week_avg", .float r.count_4week_avg),
        ("growth_rate", .float r.growth_rate), ("mean_cvss", .float r.mean_cvss),
        ("unique_cves", .int r.unique_cves), ("unique_countries", .int r.unique_countries),
        ("top_countries", .arr (r.top_countries.map countryToJson)),
        ("top_tags", .arr (r.top_tags.map Json.str)),
        ("top_cves", .arr (r.top_cves.map cveToJson))]

/-- JSON string escaping used by `json.dumps` (the characters met here). -/
def jsonEscapeChar (c : Char) : List Char :=
  if c = '"' then [bslash, '"']
  else if c = bslash then [bslash, bslash]
  else if c = '\n' then [bslash, 'n']
  else if c = '\t' then [bslash, 't']
  else if c = '\r' then [bslash, 'r']
  else [c]

/-- A JSON string literal. -/
def jsonQuote (s : String) : String :=
  "\"" ++ String.mk (s.data.foldr (fun c acc => jsonEscapeChar c ++ acc) []) ++ "\""

mutual

/-- `json.dumps(x, separators=(",", ":"), ensure_ascii=False)`: the compact
serialization used once the token budget bites. -/
def dumpsC : Json → String
  | .null => "null"
  | .bool b => if b then "true" else "false"
  | .int n => toString n
  | .float q => floatRepr q
  | .str s => jsonQuote s
  | .arr xs => "[" ++ dumpsCL xs ++ "]"
  | .obj kvs => "\x7b" ++ dumpsCO kvs ++ "\x7d"

/-- Comma-joined compact elements. -/
def dumpsCL : List Json → String
  | [] => ""
  | [x] => dumpsC x
  | x :: y :: xs => dumpsC x ++ "," ++ dumpsCL (y :: xs)

/-- Comma-joined compact members. -/
def dumpsCO : JObj → String
  | [] => ""
  | [(k, v)] => jsonQuote k ++ ":" ++ dumpsC v
  | (k, v) :: y :: xs => jsonQuote k ++ ":" ++ dumpsC v ++ "," ++ dumpsCO (y :: xs)

end

/-- An indentation run. -/
def spaces (n : Nat) : String := String.mk (List.replicate n ' ')

mutual

/-- `json.dumps(x, indent=2, ensure_ascii=False)`: the pretty serialization of
the initial prompt; `ind` is the indentation of the enclosing container. -/
def dumpsI (ind : Nat) : Json → String
  | .arr [] => "[]"
  | .arr (x :: xs) => "[\n" ++ dumpsIL (ind + 2) (x :: xs) ++ "\n" ++ spaces ind ++ "]"
  | .obj [] => "\x7b\x7d"
  | .obj (kv :: kvs) => "\x7b\n" ++ dumpsIO (ind + 2) (kv :: kvs) ++ "\n" ++ spaces ind ++ "\x7d"
  | j => dumpsC j

/-- Indented elements, one per line, comma-separated. -/
def dumpsIL (ind : Nat) : List Json → String
  | [] => ""
  | [x] => spaces ind ++ dumpsI ind x
  | x :: y :: xs => spaces ind ++ dumpsI ind x ++ ",\n" ++ dumpsIL ind (y :: xs)

/-- Indented members, one per line, comma-separated. -/
def dumpsIO (ind : Nat) : JObj → String
  | [] => ""
  | [(k, v)] => spaces ind ++ jsonQuote k ++ ": " ++ dumpsI ind v
  | (k, v) :: y :: xs => spaces ind ++ jsonQuote k ++ ": " ++ dumpsI ind v ++ ",\n" ++ dumpsIO ind (y :: xs)

end

/-- `create_forecast_prompt`: the user prompt with the serialized records
embedded (compact or indented per the flag). -/
def createForecastPrompt (records : List FeatureRecord) (weeks : Nat) (compact : Bool) : String :=
  let dataJson :=
    if compact then dumpsC (.arr (records.map recToJson))
    else dumpsI 0 (.arr (records.map recToJson))
  "Input: aggregated United States threat intelligence records (weekly) for forecast_horizon_weeks = "
    ++ toString weeks ++ ".\n"
    ++ "Analyze US threat trends and provide forecasts for the next " ++ toString weeks
    ++ " weeks.\n\n"
    ++ "Historical Data (recent weeks - US only):\n" ++ dataJson ++ "\n\n"
    ++ "Return JSON exactly following the schema with United States predictions for the NEXT "
    ++ toString weeks ++ " weeks."

/-- Character count of a string, consumed eight at a time (equal to
`List.length`, written in chunks so that concrete evaluation stays shallow). -/
def strLen8 : List Char → Nat
  | _ :: _ :: _ :: _ :: _ :: _ :: _ :: _ :: cs => strLen8 cs + 8
  | _ :: cs => strLen8 cs + 1
  | [] => 0

/-- `count_tokens` in its heuristic form `max(1, int(len(text) / 4))` (the
tokenizer-less fallback branch; the exact-tokenizer branch is an external
library and the claims depend only on estimates being over or under budget). -/
def countTokens (text : String) : Nat := max 1 (strLen8 text.data / 4)

/-- `estimate_prompt_and_cost`, restricted to its `estimated_input_tokens`
field (the only one the compression loop reads). -/
def estTokens (records : List FeatureRecord) (weeks : Nat) (compact : Bool) : Nat :=
  countTokens (createForecastPrompt records weeks compact)

/-- The list truncation `[:3]/[:5]/[:3]` applied to every output record by both
branches of `compress_feature_records`. -/
def truncLists (r : FeatureRecord) : FeatureRecord :=
  { r with top_cves := r.top_cves.take 3, top_tags := r.top_tags.take 5,
           top_countries := r.top_countries.take 3 }

/-- Python slice `l[-k:]` (the whole list when `k = 0`). -/
def sliceLastK {α : Type} (l : List α) (k : Nat) : List α :=
  if k = 0 then l else l.drop (l.length - k)

/-- Python slice `l[:-k]` (empty when `k = 0`). -/
def dropLastK {α : Type} (l : List α) (k : Nat) : List α :=
  if k = 0 then [] else l.take (l.length - k)

/-- The synthetic summary record that `compress_feature_records` collapses the
`older` records into; `weekRef` is `feature_records[-keep]['week_start']`. -/
def mkSummary (older : List FeatureRecord) (weekRef : String) : FeatureRecord :=
  let aggCount : Int := (older.map (·.count_last_week)).sum
  let aggMean : Rat := (older.map (·.mean_cvss)).sum / (max 1 older.length : Nat)
  let aggUnique : Int := (older.map (·.unique_cves)).sum
  let cveScores := older.foldl (fun acc r =>
    r.top_cves.foldl (fun a c => if c.id = "" then a else bumpKV a c.id (c.occurrences : Rat)) acc) []
  let tagScores := older.foldl (fun acc r =>
    r.top_tags.foldl (fun a t => bumpKV a t 1) acc) []
  let ctyScores := older.foldl (fun acc r =>
    r.top_countries.foldl (fun a c => bumpKV a c.code (c.threatCount : Rat)) acc) []
  { region := "United States",
    week_start := "older_history_summary_up_to_" ++ weekRef,
    count_last_week := aggCount,
    count_4week_avg := roundN 1 ((aggCount : Rat) / (max 1 older.length : Nat)),
    growth_rate := 0,
    mean_cvss := roundN 2 aggMean,
    unique_cves := aggUnique,
    unique_countries := (ctyScores.length : Int),
    top_countries := (sortDesc (·.2) ctyScores).take 3 |>.map (fun kv => CountryEntry.mk kv.1 (truncQ kv.2)),
    top_tags := (sortDesc (·.2) tagScores).take 5 |>.map (·.1),
    top_cves := (sortDesc (·.2) cveScores).take 5 |>.map (fun kv => CveEntry.mk kv.1 (truncQ kv.2) (roundN 2 aggMean)) }

/-- `compress_feature_records`, with Python's aliasing made explicit: the first
component is the returned list, the second is the caller's input list after the
call.  The small branch (`len <= keep + 1`) copies each record (`dict(r)`)
before trimming, so the input is untouched; the merge branch builds the output
from the last `keep` input records themselves plus a fresh summary, and the
final `[:3]/[:5]/[:3]` truncation loop mutates those shared records, so the
caller's last `keep` records end up trimmed too. -/
def compressFR (records : List FeatureRecord) (keep : Nat) : List FeatureRecord × List FeatureRecord :=
  if records.isEmpty then (records, records)
  else if records.length ≤ keep + 1 then
    (records.map truncLists, records)
  else
    let recent := sliceLastK records keep
    let older := dropLastK records keep
    let weekRef := ((sliceLastK records keep).headD dfltRec).week_start
    let summary := mkSummary older weekRef
    ((recent ++ [summary]).map truncLists, older ++ recent.map truncLists)

/-- The iterative compression loop of `forecast_threats` (lines 776-788),
recursing on `current_keep`: while the estimate exceeds the budget and
`current_keep > 1`, compress with the current value, re-estimate with compact
serialization, break when under budget, else decrement with floor 1.  Returns
the final records and estimate plus the list of `keep` values actually passed
to `compress_feature_records` (in call order). -/
def loopGo (maxTok weeks : Nat) : Nat → List FeatureRecord → Nat → List FeatureRecord × Nat × List Nat
  | 0, recs, tok => (recs, tok, [])
  | 1, recs, tok => (recs, tok, [])
  | k + 2, recs, tok =>
    if tok ≤ maxTok then (recs, tok, [])
    else
      let recs1 := (compressFR recs (k + 2)).1
      let tok1 := estTokens recs1 weeks true
      if tok1 ≤ maxTok then (recs1, tok1, [k + 2])
      else
        let r := loopGo maxTok weeks (k + 1) recs1 tok1
        (r.1, r.2.1, (k + 2) :: r.2.2)

/-- The aggressive per-record trimming of lines 794-800: 1 top-CVE, 2 top-tags,
1 top-country. -/
def aggressiveTrim (r : FeatureRecord) : FeatureRecord :=
  { r with top_cves := r.top_cves.take 1, top_tags := r.top_tags.take 2,
           top_countries := r.top_countries.take 1 }

/-- Result of the budgeting phase of `forecast_threats`. -/
structure CompressOutcome where
  records : List FeatureRecord
  tokens : Nat
  aggressiveApplied : Bool
  keepsUsed : List Nat

/-- The token-budgeting phase of `forecast_threats` (lines 766-807): initial
pretty estimate, the iterative compression loop, then — whenever the estimate
is still over budget — the aggressive trimming with a final compact
re-estimate. -/
def forecastCompress (records : List FeatureRecord) (maxTok keep weeks : Nat) : CompressOutcome :=
  let tok0 := estTokens records weeks false
  let (recs1, tok1, keeps) := loopGo maxTok weeks keep records tok0
  if maxTok < tok1 then
    let recs2 := recs1.map aggressiveTrim
    let tok2 := estTokens recs2 weeks true
    ⟨recs2, tok2, true, keeps⟩
  else ⟨recs1, tok1, false, keeps⟩

/-! ### Concrete inputs used by the claim theorems -/

/-- The truncated-mid-array input of claim C1. -/
def c1str : String := "\x7b\"a\":[1,2,"

/-- Raw text whose longest balanced span does not parse while a shorter one
does (claim C2). -/
def c2str : String := "\x7btrue bad\x7d \x7b\"ok\":1\x7d"

/-- The span the claim C2 expects to be recovered. -/
def c2short : String := "\x7b\"ok\":1\x7d"

/-- Week-start forcing example input (claim C3). -/
def c3fd : JObj :=
  [("predictions", .arr [.obj [], .obj [("week_start", .str "2024-01-01")]])]

/-- The post-processing output on `c3fd` (day 10). -/
def c3res : JObj := (postprocess c3fd 10).getD []

/-- A signal dict. -/
def mkSig (t i : String) (sc : Rat) : Json :=
  .obj [("signal_type", .str t), ("id", .str i), ("score", .float sc)]

/-- The prediction list whose three signal scores make the rounded
probabilities sum to 1.001 (claim C4). -/
def c4preds : List Json :=
  [.obj [("top_signals", .arr [mkSig "tag" "alpha" 3336, mkSig "tag" "beta" 3336])],
   .obj [("top_signals", .arr [mkSig "tag" "gamma" 3328])]]

/-- Forecast without `predicted_threat_types` built from `c4preds`. -/
def c4fd : JObj := [("predictions", .arr c4preds)]

/-- The post-processed `c4fd` after block 2. -/
def c4fd' : JObj := (pp2 c4fd).getD []

/-- Sum of the `probability` fields of a derived threat-type list. -/
def probSum (l : List Json) : Rat :=
  (l.map (fun j =>
    match j with
    | .obj kvs =>
      match lookupKV kvs "probability" with
      | some (.float q) => q
      | _ => 0
    | _ => 0)).sum

/-- The derived threat-type list of `c4fd'`. -/
def c4list : List Json :=
  match lookupKV c4fd' "predicted_threat_types" with
  | some (.arr l) => l
  | _ => []

/-- Forecast with one numeric and one non-numeric `expected_count` (claim C5). -/
def c5fd : JObj :=
  [("predictions", .arr [.obj [("expected_count", .int 5)],
                         .obj [("expected_count", .str "x")]])]

/-- Modelled from the claim's words (not from the code): the sum in which a
prediction with missing or non-numeric `expected_count` contributes 0 while
the numeric ones still contribute. -/
def monthlyPerClaim (fd : JObj) : Int :=
  match getKV fd "predictions" (.arr []) with
  | .arr ps => ((ps.take 4).map (fun p => (expCount p).getD 0)).sum
  | _ => 0

/-- All-numeric variant used to witness the amended claim C5. -/
def c5fdB : JObj :=
  [("predictions", .arr [.obj [("expected_count", .int 5)],
                         .obj [("expected_count", .int 7)],
                         .obj [],
                         .obj [("expected_count", .float (15 / 2))],
                         .obj [("expected_count", .int 100)]])]

/-- Raw text on which strategies 1-5 fail, the regex repairs of the isolated
span would succeed, yet the code errors because the repairs are skipped when a
balanced span exists (claim C6). -/
def c6raw : String := "```json\n\x7b'a': \"x'\x7d\n``` \"\x7d \x7boops\x7d"

/-- The isolated (fenced) span of `c6raw`. -/
def c6jt : String := "\x7b'a': \"x'\x7d"

/-- The six-record input of the compression-loop run of claim C8. -/
def c8rec (w : String) : FeatureRecord :=
  { region := "United States", week_start := w, count_last_week := 1,
    count_4week_avg := 1, growth_rate := 0, mean_cvss := 5,
    unique_cves := 1, unique_countries := 0,
    top_countries := [], top_tags := [], top_cves := [] }

/-- Six weekly records. -/
def c8recs : List FeatureRecord :=
  [c8rec "w1", c8rec "w2", c8rec "w3", c8rec "w4", c8rec "w5", c8rec "w6"]

/-- Five weekly records (claim C10's merge-branch witness input). -/
def c10recs : List FeatureRecord :=
  [c8rec "w1", c8rec "w2", c8rec "w3", c8rec "w4", c8rec "w5"]

/-- The object embedding a brace-holding string value (claim C9). -/
def c9obj (w : String) : String := "\x7b\"desc\":\"" ++ w ++ "\"\x7d"

/-- The raw text of claim C9: prose followed by the object. -/
def c9raw (w : String) : String := "Sure: " ++ c9obj w

/-- `week_start` field of a prediction dict. -/
def weekStartOf (p : Json) : Option Json :=
  match p with
  | .obj kvs => lookupKV kvs "week_start"
  | _ => none

end ThreatForecast

namespace ThreatForecast

/-! ### Helper lemmas -/

theorem lookup_setKeyKV_self (kvs : JObj) (k : String) (v : Json) :
    lookupKV (setKeyKV kvs k v) k = some v := by
  induction kvs with
  | nil => simp [setKeyKV, lookupKV]
  | cons kv rest ih =>
    obtain ⟨k1, v1⟩ := kv
    by_cases h : k1 = k
    · simp [setKeyKV, h, lookupKV]
    · simp [setKeyKV, h, lookupKV, ih]

theorem lookup_setKeyKV_ne (kvs : JObj) (k k' : String) (v : Json) (h : k' ≠ k) :
    lookupKV (setKeyKV kvs k v) k' = lookupKV kvs k' := by
  induction kvs with
  | nil =>
    have h2 : ¬ k = k' := fun he => h he.symm
    simp [setKeyKV, lookupKV, h2]
  | cons kv rest ih =>
    obtain ⟨k1, v1⟩ := kv
    by_cases h1 : k1 = k
    · subst h1
      have h2 : ¬ k1 = k' := fun he => h (he ▸ rfl)
      simp [setKeyKV, lookupKV, h2]
    · by_cases h2 : k1 = k'
      · subst h2
        have h3 : ¬ k1 = k := h1
        simp [setKeyKV, h3, lookupKV]
      · simp [setKeyKV, h1, lookupKV, h2, ih]

/-! ### Claim C1 -/

/-- C1 counterexample: for the truncated input the recovery cascade does not
return `\x7b"a": [1, 2]\x7d`; it fails terminally, because the trailing-comma
strip runs before the closers are appended and therefore cannot remove the
comma that ends the truncated text. -/
theorem c1_counterexample :
    recover c1str ≠ .ok (.obj [("a", .arr [.int 1, .int 2])]) := by
  intro h
  rw [show recover c1str = .error ⟨none, c1str⟩ from rfl] at h
  exact Except.noConfusion h

/-- C1 (amended): on `\x7b"a":[1,2,` the comma strip matches nothing (no closer
follows the comma yet), auto-close appends exactly `]\x7d` producing
`\x7b"a":[1,2,]\x7d`, that candidate does not parse (the trailing comma now
precedes the appended closer), the quote substitution does not help, and the
whole recovery fails terminally.  The strip helps only commas already followed
by a closer in the text. -/
theorem c1_amended :
    stripTrailingCommas c1str.data = c1str.data ∧
    autocloseCandidate c1str.data = ("\x7b\"a\":[1,2,]\x7d").data ∧
    jsonParse "\x7b\"a\":[1,2,]\x7d" = none ∧
    autocloseAndClean c1str.data = none ∧
    recover c1str = .error ⟨none, c1str⟩ :=
  ⟨rfl, rfl, rfl, rfl, rfl⟩

/-! ### Claim C2 -/

/-- C2 counterexample: on `\x7btrue bad\x7d \x7b"ok":1\x7d` the
largest-balanced-block stage is reached (every earlier strategy fails), the
shorter balanced span `\x7b"ok":1\x7d` is collected and parses, but the engine
only attempts the longest span `\x7btrue bad\x7d` (which does not parse) and
the cascade errors instead of recovering the shorter span's object. -/
theorem c2_counterexample :
    recover c2str = .error ⟨none, c2str⟩ ∧
    findLargestBalanced c2str.data = some ("\x7btrue bad\x7d").data ∧
    c2short.data ∈ balancedSpans c2str.data ∧
    jsonParse c2short = some (.obj [("ok", .int 1)]) := by
  refine ⟨rfl, rfl, ?_, rfl⟩
  rw [show balancedSpans c2str.data = [("\x7btrue bad\x7d").data, c2short.data] from rfl]
  simp

theorem foldlPick_mem (x : List Char) (xs : List (List Char)) :
    (xs.foldl (fun best y => if best.length < y.length then y else best) x) ∈ x :: xs := by
  induction xs generalizing x with
  | nil => simp
  | cons y ys ih =>
    simp only [List.foldl_cons]
    have h := ih (if x.length < y.length then y else x)
    rw [List.mem_cons] at h
    rcases h with h | h
    · rw [h]
      by_cases hxy : x.length < y.length
      · simp [hxy]
      · simp [hxy]
    · simp only [List.mem_cons]
      tauto

theorem foldlPick_le (x : List Char) (xs : List (List Char)) :
    ∀ r ∈ x :: xs,
      r.length ≤ (xs.foldl (fun best y => if best.length < y.length then y else best) x).length := by
  induction xs generalizing x with
  | nil =>
    intro r hr
    rw [List.mem_singleton] at hr
    simp [hr]
  | cons y ys ih =>
    intro r hr
    rw [List.mem_cons, List.mem_cons] at hr
    simp only [List.foldl_cons]
    have step1 : x.length ≤ (if x.length < y.length then y else x).length := by
      by_cases hxy : x.length < y.length
      · simp only [hxy, if_pos]
        omega
      · simp [hxy]
    have step2 : y.length ≤ (if x.length < y.length then y else x).length := by
      by_cases hxy : x.length < y.length
      · simp [hxy]
      · simp only [hxy, if_neg, if_false]
        omega
    have base := ih (if x.length < y.length then y else x)
    rcases hr with hr | hr | hr
    · subst hr
      exact le_trans step1 (base _ (List.mem_cons_self _ _))
    · subst hr
      exact le_trans step2 (base _ (List.mem_cons_self _ _))
    · exact base r (List.mem_cons_of_mem _ hr)

/-- C2 (amended): `find_largest_balanced` returns a member of the collected
top-level balanced spans that is of maximal length (the first such), and only
that one span is handed to the parse attempts — so when it fails to parse, a
shorter parseable span is not recovered by this strategy. -/
theorem c2_amended (cs : List Char) (b : List Char) (h : findLargestBalanced cs = some b) :
    b ∈ balancedSpans cs ∧ ∀ r ∈ balancedSpans cs, r.length ≤ b.length := by
  unfold findLargestBalanced maxByLen at h
  rcases hs : balancedSpans cs with _ | ⟨x, xs⟩
  · rw [hs] at h
    exact Option.noConfusion h
  · rw [hs] at h
    have hb : b = xs.foldl (fun best y => if best.length < y.length then y else best) x :=
      (Option.some.injEq _ _ ▸ h).symm
    subst hb
    exact ⟨foldlPick_mem x xs, foldlPick_le x xs⟩

/-- C2 witness: the amended theorem applied to the concrete two-span input. -/
theorem c2_witness :
    ("\x7btrue bad\x7d").data ∈ balancedSpans c2str.data ∧
    ∀ r ∈ balancedSpans c2str.data, r.length ≤ ("\x7btrue bad\x7d").data.length :=
  c2_amended c2str.data ("\x7btrue bad\x7d").data rfl

/-! ### Claim C8 (amended) -/

/-- C8 (amended): the compression loop always terminates (it is a total
function of `current_keep`), and every `keep` value it ever passes to
`compress_feature_records` is at least 2 — the guard `current_keep > 1` makes
the loop exit before a `keep_recent_weeks = 1` compression can run, so the
aggressive truncation (applied whenever the final estimate is still over
budget) is reached without any `keep = 1` attempt. -/
theorem c8_amended (maxTok weeks keep : Nat) (recs : List FeatureRecord) (tok : Nat) :
    ∀ k ∈ (loopGo maxTok weeks keep recs tok).2.2, 2 ≤ k := by
  induction keep using Nat.strong_induction_on generalizing recs tok with
  | _ keep ih =>
    rcases keep with _ | _ | k0
    · intro k hk
      simp [loopGo] at hk
    · intro k hk
      simp [loopGo] at hk
    · intro k hk
      rw [loopGo] at hk
      split_ifs at hk with h1
      · simp at hk
      · by_cases h2 : estTokens (compressFR recs (k0 + 2)).1 weeks true ≤ maxTok
        · rw [if_pos h2] at hk
          simp at hk
          omega
        · rw [if_neg h2] at hk
          simp only [List.mem_cons] at hk
          rcases hk with hk | hk
          · omega
          · exact ih (k0 + 1) (by omega) _ _ k hk

/-- C8 witness: on the concrete six-record run the loop passes `keep = 3`, so
the amended theorem yields `2 ≤ 3`. -/
theorem c8_witness :
    3 ∈ (loopGo 1 4 3 c8recs (estTokens c8recs 4 false)).2.2 ∧ 2 ≤ 3 := by
  have hmem : 3 ∈ (loopGo 1 4 3 c8recs (estTokens c8recs 4 false)).2.2 := by
    rw [show (loopGo 1 4 3 c8recs (estTokens c8recs 4 false)).2.2 = [3, 2] from rfl]
    simp
  exact ⟨hmem, c8_amended 1 4 3 c8recs (estTokens c8recs 4 false) 3 hmem⟩

/-! ### Claim C3 -/

theorem lookup_pp1_predictions (fd : JObj) :
    lookupKV (pp1 fd) "predictions" = lookupKV fd "predictions" := by
  rw [pp1]
  split_ifs with h
  · rfl
  · exact lookup_setKeyKV_ne _ _ _ _ (by decide)

theorem lookup_pp2_predictions (fd fd' : JObj) (h : pp2 fd = some fd') :
    lookupKV fd' "predictions" = lookupKV fd "predictions" := by
  rw [pp2] at h
  split_ifs at h with hk
  · injection h with h
    subst h
    rfl
  · rcases hagg : aggSignals (getKV fd "predictions" (.arr [])) with _ | agg
    · rw [hagg] at h
      exact Option.noConfusion h
    · rw [hagg] at h
      injection h with h
      subst h
      exact lookup_setKeyKV_ne _ _ _ _ (by decide)

theorem lookup_pp3_predictions (fd fd' : JObj) (h : pp3 fd = some fd') :
    lookupKV fd' "predictions" = lookupKV fd "predictions" := by
  rw [pp3] at h
  split_ifs at h with hk
  · injection h with h
    subst h
    rfl
  · rcases hagg : ksAgg (getKV fd "predictions" (.arr [])) with _ | m
    · rw [hagg] at h
      exact Option.noConfusion h
    · rw [hagg] at h
      injection h with h
      subst h
      exact lookup_setKeyKV_ne _ _ _ _ (by decide)

theorem lookup_pp4meta_predictions (fd : JObj) (today : Nat) :
    lookupKV (pp4meta fd today) "predictions" = lookupKV fd "predictions" := by
  rw [pp4meta]
  rcases h : getKV fd "metadata" (.obj []) with _ | _ | _ | _ | _ | _ | kvs
  all_goals try rfl
  exact lookup_setKeyKV_ne _ _ _ _ (by decide)

theorem forceWeeks_length (today : Nat) (ps : List Json) (i : Nat) :
    (forceWeeks today ps i).length = ps.length := by
  induction ps generalizing i with
  | nil => rfl
  | cons p ps ih => simp [forceWeeks, ih]

theorem forceWeeks_get? (today : Nat) (ps : List Json) (i j : Nat) :
    (forceWeeks today ps i).get? j =
      (ps.get? j).map (fun p =>
        match p with
        | .obj kvs => Json.obj (setKeyKV kvs "week_start" (.str (dayStr (today + 7 * (i + j)))))
        | p => p) := by
  induction ps generalizing i j with
  | nil => simp [forceWeeks]
  | cons p ps ih =>
    cases j with
    | zero =>
      simp only [forceWeeks, List.get?, Option.map_some, Nat.add_zero]
      cases p <;> rfl
    | succ j =>
      simp only [forceWeeks, List.get?]
      rw [ih (i + 1) j]
      have harith : i + 1 + j = i + (j + 1) := by omega
      simp only [harith]

/-- C3: for every parsed forecast object whose `predictions` value is a list of
dicts, a successful post-processing yields a predictions list of the same
length in which prediction `j` carries `week_start = today + 7 * j` (in the
day-count date model) — a strictly increasing sequence, consecutive entries
exactly 7 days apart, starting at the UTC date of the call, regardless of the
week_start values the LLM emitted. -/
theorem c3_week_start (fd : JObj) (today : Nat) (res : JObj) (preds : List Json)
    (hpost : postprocess fd today = some res)
    (hpreds : lookupKV fd "predictions" = some (.arr preds))
    (hobj : ∀ p ∈ preds, ∃ kvs, p = Json.obj kvs) :
    ∃ preds' : List Json,
      lookupKV res "predictions" = some (.arr preds') ∧
      preds'.length = preds.length ∧
      ∀ j : Nat, j < preds.length →
        (preds'.get? j).bind weekStartOf = some (.str (dayStr (today + 7 * j))) := by
  rw [postprocess] at hpost
  rcases hb : pp2 (pp1 fd) with _ | b
  · rw [hb] at hpost
    exact Option.noConfusion hpost
  rw [hb] at hpost
  have hpost2 : (match pp3 b with
      | none => none
      | some c => some (pp4 c today)) = some res := hpost
  rcases hc : pp3 b with _ | c
  · rw [hc] at hpost2
    exact Option.noConfusion hpost2
  rw [hc] at hpost2
  injection hpost2 with hpost2
  have hlc : lookupKV c "predictions" = some (.arr preds) := by
    rw [lookup_pp3_predictions _ _ hc, lookup_pp2_predictions _ _ hb,
        lookup_pp1_predictions, hpreds]
  have hres : res = pp4meta (setKeyKV c "predictions" (.arr (forceWeeks today preds 0))) today := by
    rw [← hpost2, pp4, hlc]
  refine ⟨forceWeeks today preds 0, ?_, forceWeeks_length _ _ _, ?_⟩
  · rw [hres, lookup_pp4meta_predictions, lookup_setKeyKV_self]
  · intro j hj
    rw [forceWeeks_get?]
    rcases hget : preds.get? j with _ | p
    · rw [List.get?_eq_none] at hget
      omega
    · obtain ⟨kvs, hkvs⟩ := hobj p (List.get?_mem hget)
      subst hkvs
      simp [weekStartOf, lookup_setKeyKV_self]

/-- C3 witness: the theorem applied to the two-prediction forecast `c3fd` at
day 10 (hypotheses discharged concretely); the forced week starts are days 10
and 17. -/
theorem c3_witness :
    ∃ preds' : List Json,
      lookupKV c3res "predictions" = some (.arr preds') ∧
      preds'.length = 2 ∧
      ∀ j : Nat, j < 2 →
        (preds'.get? j).bind weekStartOf = some (.str (dayStr (10 + 7 * j))) := by
  have h := c3_week_start c3fd 10 c3res
      [.obj [], .obj [("week_start", .str "2024-01-01")]] rfl rfl ?_
  · exact h
  · intro p hp
    rw [List.mem_cons, List.mem_singleton] at hp
    rcases hp with hp | hp <;> exact ⟨_, hp⟩

/-! ### Claim C10 -/

/-- C10: frame behaviour of `compress_feature_records`.  When
`len(records) <= keep + 1` the function returns fresh trimmed copies and the
caller's input is untouched.  When `len(records) > keep + 1` the caller's
input after the call has its last `keep` records trimmed in place (the head
`len - keep` records are unchanged), and those trimmed records are exactly the
first `keep` entries of the returned list — the output aliases them. -/
theorem c10_thm (records : List FeatureRecord) (keep : Nat) (hk : 1 ≤ keep) :
    (records.length ≤ keep + 1 →
       (compressFR records keep).2 = records ∧
       (compressFR records keep).1 = records.map truncLists) ∧
    (keep + 1 < records.length →
       (compressFR records keep).2 =
         records.take (records.length - keep) ++
           (records.drop (records.length - keep)).map truncLists ∧
       (compressFR records keep).2.drop (records.length - keep) =
         (compressFR records keep).1.take keep) := by
  have hk0 : keep ≠ 0 := by omega
  constructor
  · intro hle
    by_cases hemp : records.isEmpty
    · have : records = [] := List.isEmpty_iff.mp hemp
      subst this
      exact ⟨rfl, rfl⟩
    · rw [compressFR, if_neg (by simp [hemp]), if_pos hle]
      exact ⟨rfl, rfl⟩
  · intro hgt
    have hemp : ¬ records.isEmpty := by
      intro h
      rw [List.isEmpty_iff.mp h] at hgt
      simp at hgt
    have hnle : ¬ records.length ≤ keep + 1 := by omega
    rw [compressFR, if_neg (by simp [hemp]), if_neg hnle]
    simp only [sliceLastK, dropLastK, if_neg hk0]
    have hlt : records.length - keep ≤ records.length := Nat.sub_le _ _
    have hktake : (records.take (records.length - keep)).length = records.length - keep := by
      rw [List.length_take]
      omega
    have hkdrop : ((records.drop (records.length - keep)).map truncLists).length = keep := by
      rw [List.length_map, List.length_drop]
      omega
    refine ⟨by trivial, ?_⟩
    rw [List.drop_left' hktake, List.map_append]
    rw [List.take_left' hkdrop]

/-- C10 witness: the merge branch of the theorem applied to five records with
`keep = 2`, every hypothesis discharged concretely. -/
theorem c10_witness :
    (compressFR c10recs 2).2 =
      c10recs.take (c10recs.length - 2) ++
        (c10recs.drop (c10recs.length - 2)).map truncLists ∧
    (compressFR c10recs 2).2.drop (c10recs.length - 2) =
      (compressFR c10recs 2).1.take 2 :=
  (c10_thm c10recs 2 (by decide)).2 (by decide)

/-! ### Claim C4 -/

/-- C4 counterexample: a forecast lacking `predicted_threat_types` with three
tag signals scoring 3336, 3336 and 3328.  The derived probabilities are
`round(0.3336, 3) = 0.334`, `0.334` and `round(0.3328, 3) = 0.333`, summing to
1.001, which exceeds 1.0 by a thousandth — far beyond the claimed 1e-6
tolerance (each 3-decimal rounding can add up to 5e-4). -/
theorem c4_counterexample :
    hasKeyKV c4fd "predicted_threat_types" = false ∧
    pp2 c4fd = some c4fd' ∧
    lookupKV c4fd' "predicted_threat_types" = some (.arr c4list) ∧
    probSum c4list = 1001 / 1000 ∧
    ¬ (probSum c4list ≤ 1 + 1 / 1000000) := by
  refine ⟨rfl, rfl, rfl, rfl, ?_⟩
  rw [show probSum c4list = 1001 / 1000 from rfl]
  norm_num

theorem rhe_le (q : Rat) : (rhe q : Rat) ≤ q + 1 / 2 := by
  have hfl : (⌊q⌋ : Rat) ≤ q := Int.floor_le q
  rw [rhe]
  split_ifs with h1 h2 h3
  · linarith
  · push_cast
    linarith
  · linarith
  · have hr : q - (⌊q⌋ : Rat) = 1 / 2 := le_antisymm (not_lt.mp h2) (not_lt.mp h1)
    push_cast
    linarith

theorem roundN3_le (x : Rat) : roundN 3 x ≤ x + 1 / 2000 := by
  rw [roundN]
  rw [div_le_iff₀ (by norm_num : (0 : Rat) < 10 ^ 3)]
  have h := rhe_le (x * 10 ^ 3)
  have : (x + 1 / 2000) * 10 ^ 3 = x * 10 ^ 3 + 1 / 2 := by ring
  linarith

theorem insDesc_perm {α : Type} (score : α → Rat) (x : α) (l : List α) :
    List.Perm (insDesc score x l) (x :: l) := by
  induction l with
  | nil => exact List.Perm.refl _
  | cons y ys ih =>
    rw [insDesc]
    split_ifs
    · exact List.Perm.refl _
    · exact List.Perm.trans (List.Perm.cons y ih) (List.Perm.swap x y ys)

theorem sortDesc_perm {α : Type} (score : α → Rat) (l : List α) :
    List.Perm (sortDesc score l) l := by
  suffices h : ∀ acc : List α,
      List.Perm (l.foldl (fun acc x => insDesc score x acc) acc) (l ++ acc) by
    simpa using h []
  induction l with
  | nil =>
    intro acc
    simp
  | cons x xs ih =>
    intro acc
    simp only [List.foldl_cons, List.cons_append]
    refine List.Perm.trans (ih (insDesc score x acc)) ?_
    refine List.Perm.trans (List.Perm.append_left xs (insDesc_perm score x acc)) ?_
    exact List.perm_middle

theorem sum_map_add_const {α : Type} (l : List α) (f : α → Rat) (c : Rat) :
    (l.map (fun x => f x + c)).sum = (l.map f).sum + l.length * c := by
  induction l with
  | nil => simp
  | cons x xs ih =>
    simp only [List.map_cons, List.sum_cons, ih, List.length_cons]
    push_cast
    ring

theorem sum_map_div_const {α : Type} (l : List α) (f : α → Rat) (c : Rat) :
    (l.map (fun x => f x / c)).sum = (l.map f).sum / c := by
  induction l with
  | nil => simp
  | cons x xs ih => simp [ih, add_div]

theorem probSum_normTypes_le (agg : List (String × Rat)) :
    probSum (normTypes agg) ≤ 1 + (agg.length : Rat) / 2000 := by
  have hlen : (0 : Rat) ≤ (agg.length : Rat) / 2000 := by positivity
  rw [normTypes]
  by_cases ht : 0 < (agg.map (·.2)).sum
  · rw [if_pos ht]
    have hperm := sortDesc_perm (fun kv : String × Rat => kv.2) agg
    have hmap : probSum ((sortDesc (·.2) agg).map (fun kv =>
        Json.obj [("threat_type", .str kv.1),
                  ("probability", .float (roundN 3 (kv.2 / (agg.map (·.2)).sum)))])) =
        ((sortDesc (·.2) agg).map
          (fun kv => roundN 3 (kv.2 / (agg.map (·.2)).sum))).sum := by
      rw [probSum, List.map_map]
      rfl
    rw [hmap]
    have hle : ((sortDesc (·.2) agg).map
        (fun kv => roundN 3 (kv.2 / (agg.map (·.2)).sum))).sum ≤
        ((sortDesc (·.2) agg).map
          (fun kv => kv.2 / (agg.map (·.2)).sum + 1 / 2000)).sum := by
      apply List.sum_le_sum
      intro kv _
      exact roundN3_le _
    have hsplit := sum_map_add_const (sortDesc (·.2) agg)
      (fun kv => kv.2 / (agg.map (·.2)).sum) (1 / 2000)
    have hdiv := sum_map_div_const (sortDesc (·.2) agg)
      (fun kv : String × Rat => kv.2) ((agg.map (·.2)).sum)
    have hsum : ((sortDesc (·.2) agg).map (fun kv : String × Rat => kv.2)).sum =
        (agg.map (·.2)).sum := List.Perm.sum_eq (List.Perm.map _ hperm)
    have hlen2 : (sortDesc (·.2) agg).length = agg.length := hperm.length_eq
    have hone : ((sortDesc (·.2) agg).map (fun kv : String × Rat => kv.2)).sum /
        (agg.map (·.2)).sum = 1 := by
      rw [hsum]
      exact div_self (ne_of_gt ht)
    calc ((sortDesc (·.2) agg).map
          (fun kv => roundN 3 (kv.2 / (agg.map (·.2)).sum))).sum
        ≤ ((sortDesc (·.2) agg).map
            (fun kv => kv.2 / (agg.map (·.2)).sum + 1 / 2000)).sum := hle
      _ = ((sortDesc (·.2) agg).map
            (fun kv => kv.2 / (agg.map (·.2)).sum)).sum +
          (sortDesc (·.2) agg).length * (1 / 2000) := hsplit
      _ = 1 + (agg.length : Rat) / 2000 := by
          rw [hdiv, hone, hlen2]
          ring
  · rw [if_neg ht]
    have : probSum [] = 0 := rfl
    rw [this]
    linarith

theorem aggSignals_empty (ps : List Json)
    (h : ∀ p ∈ ps, ∃ kvs, p = Json.obj kvs ∧
      getKV kvs "top_signals" (.arr []) = Json.arr []) :
    aggSignals (.arr ps) = some [] := by
  rw [aggSignals]
  suffices h2 : ∀ acc, aggSignalsList ps acc = some acc from h2 []
  induction ps with
  | nil =>
    intro acc
    rfl
  | cons p ps ih =>
    intro acc
    obtain ⟨kvs, hp, hsig⟩ := h p (List.mem_cons_self _ _)
    subst hp
    rw [aggSignalsList, aggSignalsOfPred, hsig]
    exact ih (fun q hq => h q (List.mem_cons_of_mem _ hq)) acc

/-- C4 (amended): when `predicted_threat_types` is derived from the signals,
the stored (3-decimal-rounded) probabilities sum to at most
`1 + k / 2000` where `k` is the number of distinct threat-type keys — each
rounding can add up to 5e-4, so the claimed 1e-6 bound fails, but the
pre-rounding ratios sum to exactly 1; and the derived list is empty whenever
no signals exist anywhere in the predictions. -/
theorem c4_amended (ps : List Json) (agg : List (String × Rat))
    (h : aggSignals (.arr ps) = some agg) :
    probSum (normTypes agg) ≤ 1 + (agg.length : Rat) / 2000 ∧
    ((∀ p ∈ ps, ∃ kvs, p = Json.obj kvs ∧
        getKV kvs "top_signals" (.arr []) = Json.arr []) →
      normTypes agg = []) := by
  refine ⟨probSum_normTypes_le agg, fun hns => ?_⟩
  have h2 := aggSignals_empty ps hns
  rw [h] at h2
  injection h2 with h2
  rw [h2]
  rfl

/-- C4 witness: the amended theorem applied to the concrete three-signal
prediction list (its aggregated keys are Alpha, Beta, Gamma with scores 3336,
3336, 3328). -/
theorem c4_witness :
    probSum (normTypes [("Alpha", (3336 : Rat)), ("Beta", 3336), ("Gamma", 3328)]) ≤
      1 + (([("Alpha", (3336 : Rat)), ("Beta", 3336), ("Gamma", 3328)].length : Rat)) / 2000 ∧
    ((∀ p ∈ c4preds, ∃ kvs, p = Json.obj kvs ∧
        getKV kvs "top_signals" (.arr []) = Json.arr []) →
      normTypes [("Alpha", (3336 : Rat)), ("Beta", 3336), ("Gamma", 3328)] = []) :=
  c4_amended c4preds [("Alpha", 3336), ("Beta", 3336), ("Gamma", 3328)] rfl

/-! ### Claim C5 -/

/-- C5 counterexample: with predictions `[\x7bexpected_count: 5\x7d,
\x7bexpected_count: "x"\x7d]` the claim says the derived
`monthly_predicted_attacks` is 5 (the non-numeric entry contributing 0), but
the code's `try` wraps the whole sum, so the exception raised by `int("x")`
zeroes everything and the stored value is 0. -/
theorem c5_counterexample :
    lookupKV (pp1 c5fd) "monthly_predicted_attacks" = some (.int 0) ∧
    monthlyPerClaim c5fd = 5 ∧ (0 : Int) ≠ 5 :=
  ⟨rfl, rfl, by decide⟩

theorem expCounts_all_some (l : List Json) (h : ∀ p ∈ l, (expCount p).isSome) :
    expCounts l = some (l.map (fun p => (expCount p).getD 0)) := by
  induction l with
  | nil => rfl
  | cons p ps ih =>
    have hp := h p (List.mem_cons_self _ _)
    obtain ⟨v, hv⟩ := Option.isSome_iff_exists.mp hp
    have hrest := ih (fun q hq => h q (List.mem_cons_of_mem _ hq))
    simp [expCounts, hv, hrest]

theorem expCounts_exists_none (l : List Json) (h : ∃ p ∈ l, expCount p = none) :
    expCounts l = none := by
  induction l with
  | nil => simp at h
  | cons p ps ih =>
    rcases h with ⟨q, hq, hqn⟩
    rw [List.mem_cons] at hq
    rcases hq with hq | hq
    · subst hq
      simp [expCounts, hqn]
    · rcases hp : expCount p with _ | v
      · simp [expCounts, hp]
      · simp [expCounts, hp, ih ⟨q, hq, hqn⟩]

/-- C5 (amended): when `monthly_predicted_attacks` is absent and `predictions`
is a list, a missing `expected_count` contributes 0 through the `.get`
default, and when every one of the first four predictions converts, the stored
value is their sum; but one non-convertible `expected_count` among the first
four zeroes the entire stored value — the numeric values of the other
predictions do not contribute. -/
theorem c5_amended (fd : JObj) (ps : List Json)
    (hnk : hasKeyKV fd "monthly_predicted_attacks" = false)
    (hp : getKV fd "predictions" (.arr []) = .arr ps) :
    ((∀ p ∈ ps.take 4, (expCount p).isSome) →
       lookupKV (pp1 fd) "monthly_predicted_attacks" =
         some (.int (((ps.take 4).map (fun p => (expCount p).getD 0)).sum))) ∧
    ((∃ p ∈ ps.take 4, expCount p = none) →
       lookupKV (pp1 fd) "monthly_predicted_attacks" = some (.int 0)) := by
  have hnk' : ¬ hasKeyKV fd "monthly_predicted_attacks" = true := by simp [hnk]
  constructor
  · intro hall
    rw [pp1, if_neg hnk', hp]
    simp only [expCounts_all_some _ hall]
    exact lookup_setKeyKV_self _ _ _
  · intro hex
    rw [pp1, if_neg hnk', hp]
    simp only [expCounts_exists_none _ hex]
    exact lookup_setKeyKV_self _ _ _

/-- C5 witness: the all-numeric forecast `c5fdB` (counts 5, 7, missing, 7.5)
stores `5 + 7 + 0 + 7 = 19`. -/
theorem c5_witness :
    lookupKV (pp1 c5fdB) "monthly_predicted_attacks" = some (.int 19) :=
  (c5_amended c5fdB
      [.obj [("expected_count", .int 5)], .obj [("expected_count", .int 7)],
       .obj [], .obj [("expected_count", .float (15 / 2))],
       .obj [("expected_count", .int 100)]] rfl rfl).1
    (by decide)

/-! ### Claim C6 -/

/-- C6 counterexample: on `c6raw` strategies 1-5 all fail, and the syntactic
repair of the isolated span would succeed (quote substitution yields
`\x7b"a": "x"\x7d`), yet the engine fails terminally: the repair branch is
skipped whenever `find_largest_balanced` returned a span, parseable or not. -/
theorem c6_counterexample :
    jsonParse c6raw = none ∧
    isolateTruthy c6raw.data = some c6jt.data ∧
    jsonParse c6jt = none ∧
    literalEval c6jt = none ∧
    findLargestBalanced c6raw.data = some ("\x7b'a': \"x'\x7d\n``` \"\x7d").data ∧
    jsonParse (String.mk (quoteReplace (stripTrailingCommas c6jt.data))) =
      some (.obj [("a", .str "x")]) ∧
    recover c6raw = .error ⟨none, c6raw⟩ :=
  ⟨rfl, rfl, rfl, rfl, rfl, rfl, rfl⟩

/-- C6 (amended): whenever the isolated span fails both the strict and the
literal parse (strategies 1-4 produce no valid parse) and the
largest-balanced-block search finds a span that also fails both parses,
the trailing-comma/quote-substitution repairs of the isolated span are never
consulted: any recovered value can only come from auto-close. -/
theorem c6_amended (raw : String) (t b : List Char)
    (h1 : jsonParse raw = none)
    (ht : isolateTruthy raw.data = some t)
    (h2 : jsonParse (String.mk t) = none)
    (h3 : literalEval (String.mk t) = none)
    (hb : findLargestBalanced raw.data = some b)
    (h4 : jsonParse (String.mk b) = none)
    (h5 : literalEval (String.mk b) = none) :
    ∀ v, recover raw = .ok v →
      ∃ c, autocloseAndClean t = some c ∧
        (jsonParse (String.mk c) = some v ∨ literalEval (String.mk c) = some v) := by
  intro v hv
  rw [recover, recoverFull] at hv
  rw [h1] at hv
  simp only [ht, h2, h3, hb, h4, h5, orO] at hv
  rcases hac : autocloseAndClean t with _ | c
  · rw [hac] at hv
    exact Except.noConfusion hv
  · rw [hac] at hv
    have hv2 : (match (match jsonParse (String.mk c) with
        | some v => some v
        | none => literalEval (String.mk c)) with
      | some v => (Except.ok v, (none : Option (String × String)))
      | none => (Except.error (terminalFailure raw).2, (terminalFailure raw).1)).1 =
        Except.ok v := hv
    rcases hj : jsonParse (String.mk c) with _ | v0
    · rcases hl : literalEval (String.mk c) with _ | v1
      · rw [hj, hl] at hv2
        simp at hv2
      · rw [hj, hl] at hv2
        simp only [Except.ok.injEq] at hv2
        refine ⟨c, rfl, Or.inr ?_⟩
        rw [hl, hv2]
    · rw [hj] at hv2
      simp only [Except.ok.injEq] at hv2
      refine ⟨c, rfl, Or.inl ?_⟩
      rw [hj, hv2]

/-- C6 witness: on `\x7b"a":true,\x7d` strategies 1-5 all fail (the literal
parser rejects `true`), and the recovery that does succeed comes from
auto-close, exactly as the amended claim states. -/
theorem c6_witness :
    ∃ c, autocloseAndClean ("\x7b\"a\":true,\x7d").data = some c ∧
      (jsonParse (String.mk c) = some (.obj [("a", .bool true)]) ∨
       literalEval (String.mk c) = some (.obj [("a", .bool true)])) :=
  c6_amended "\x7b\"a\":true,\x7d" ("\x7b\"a\":true,\x7d").data
    ("\x7b\"a\":true,\x7d").data rfl rfl rfl rfl rfl rfl rfl
    (.obj [("a", .bool true)]) rfl

/-! ### Claim C7 -/

/-- C7: when every strategy fails (input `"hello"`), the raw text is persisted,
but the raised error does not carry the path to the persisted file: the
`raise ValueError` that carries the path is itself caught by the surrounding
`except Exception`, which always re-raises the second, path-less error.  The
second conjunct shows the swallowed inner error did carry the path. -/
theorem c7_thm :
    recoverFull "hello" = (.error ⟨none, "hello"⟩, some (dumpFileName, "hello")) ∧
    (terminalTry "hello").2.savedPath = some dumpFileName :=
  ⟨rfl, rfl⟩

/-! ### Claim C8 -/

/-- C8 counterexample: a concrete run (six records, budget 1 token, initial
`keep_recent_weeks = 3`) in which the aggressive truncation is applied although
compression was only ever attempted with `keep` values 3 and 2 — never with 1,
contradicting the claim that aggressive truncation happens only after a
`keep_recent_weeks = 1` compression attempt. -/
theorem c8_counterexample :
    (forecastCompress c8recs 1 3 4).keepsUsed = [3, 2] ∧
    (forecastCompress c8recs 1 3 4).aggressiveApplied = true ∧
    1 ∉ (forecastCompress c8recs 1 3 4).keepsUsed := by
  refine ⟨rfl, rfl, ?_⟩
  rw [show (forecastCompress c8recs 1 3 4).keepsUsed = [3, 2] from rfl]
  simp


/-! ### Claim C9: braces inside string values -/

theorem findSub_btick_none (ns : List Char) (cs : List Char) (h : ∀ c ∈ cs, c ≠ btick) :
    findSub (btick :: ns) cs = none := by
  induction cs with
  | nil => rfl
  | cons c cs ih =>
    have hc : c ≠ btick := h c (List.mem_cons_self _ _)
    have hlm : leadMatch (btick :: ns) (c :: cs) = false := by
      simp [leadMatch]
      intro he
      exact absurd he.symm hc
    rw [findSub, if_neg (by simp [hlm]), ih (fun x hx => h x (List.mem_cons_of_mem _ hx))]
    rfl

theorem tryFenced_none (cs : List Char) (h : ∀ c ∈ cs, c ≠ btick) :
    tryFenced cs = none := by
  have h1 : findSub fenceJson cs = none := by
    have he : fenceJson = btick :: (btick :: btick :: ['j', 's', 'o', 'n']) := rfl
    rw [he]
    exact findSub_btick_none _ _ h
  have h2 : findSub fence3 cs = none := by
    have he : fence3 = btick :: [btick, btick] := rfl
    rw [he]
    exact findSub_btick_none _ _ h
  rw [tryFenced, h1, tryFencedAny, h2]

theorem extractFirstBraced_prefix (pre cs : List Char) (h : ∀ c ∈ pre, c ≠ '\x7b') :
    extractFirstBraced (pre ++ cs) = extractFirstBraced cs := by
  induction pre with
  | nil => rfl
  | cons c pre ih =>
    have hc : ¬ c = '\x7b' := h c (List.mem_cons_self _ _)
    rw [List.cons_append, extractFirstBraced, if_neg hc]
    exact ih (fun x hx => h x (List.mem_cons_of_mem _ hx))

theorem extractAfter_skip (w : List Char) (cs acc : List Char) (d : Nat) (qc : Char)
    (h : ∀ c ∈ w, c ≠ qc ∧ c ≠ bslash) :
    extractAfter (w ++ cs) acc d true qc false =
      extractAfter cs (w.reverse ++ acc) d true qc false := by
  induction w generalizing acc with
  | nil => simp
  | cons c w ih =>
    have hc := h c (List.mem_cons_self _ _)
    rw [List.cons_append, extractAfter, if_neg (by simp), if_neg hc.2]
    simp only [if_pos rfl]
    rw [if_neg hc.1]
    rw [ih (c :: acc) (fun x hx => h x (List.mem_cons_of_mem _ hx))]
    simp

theorem jpStringGo_skip (w : List Char) (rest acc : List Char)
    (h : ∀ c ∈ w, c ≠ '"' ∧ c ≠ bslash ∧ 32 ≤ c.toNat) :
    jpStringGo (w ++ '"' :: rest) acc = some (String.mk (acc.reverse ++ w), rest) := by
  induction w generalizing acc with
  | nil =>
    rw [List.nil_append, jpStringGo.eq_def]
    simp
  | cons c w ih =>
    have hc := h c (List.mem_cons_self _ _)
    rw [List.cons_append, jpStringGo.eq_def]
    simp only []
    rw [if_neg hc.1, if_neg hc.2.1, if_neg (by omega : ¬ c.toNat < 32)]
    rw [ih (c :: acc) (fun x hx => h x (List.mem_cons_of_mem _ hx))]
    simp

theorem flbGo_skip (w : List Char) (cs : List Char) (qc : Char) (cur : List Char)
    (results : List (List Char)) (h : ∀ c ∈ w, c ≠ qc ∧ c ≠ bslash) :
    flbGo (w ++ cs) true qc false 1 cur results =
      flbGo cs true qc false 1 (w.reverse ++ cur) results := by
  induction w generalizing cur with
  | nil => simp
  | cons c w ih =>
    have hc := h c (List.mem_cons_self _ _)
    rw [List.cons_append, flbGo.eq_def]
    simp only [hc.1, hc.2, if_false, ite_false, ite_true, Nat.le_refl, if_true]
    rw [ih (c :: cur) (fun x hx => h x (List.mem_cons_of_mem _ hx))]
    simp

theorem skipWs_nonws (c : Char) (cs : List Char) (h : isJsonWs c = false) :
    skipWs (c :: cs) = c :: cs := by
  simp [skipWs, List.dropWhile_cons, h]

theorem jpVal_S_none (fuel : Nat) (cs : List Char) : jpVal (fuel + 1) ('S' :: cs) = none := by
  rw [show jpVal (fuel + 1) ('S' :: cs) = jpNumber ('S' :: cs) from rfl, jpNumber]
  simp [List.takeWhile_cons]

theorem jpVal_obj (fuel : Nat) (wd : List Char) (rest : List Char)
    (hw : ∀ c ∈ wd, c ≠ '"' ∧ c ≠ bslash ∧ 32 ≤ c.toNat) :
    jpVal (fuel + 3)
      ('\x7b' :: '"' :: 'd' :: 'e' :: 's' :: 'c' :: '"' :: ':' :: '"' ::
        (wd ++ '"' :: '\x7d' :: rest)) =
      some (.obj [("desc", .str (String.mk wd))], rest) := by
  rw [show jpVal (fuel + 3)
      ('\x7b' :: '"' :: 'd' :: 'e' :: 's' :: 'c' :: '"' :: ':' :: '"' ::
        (wd ++ '"' :: '\x7d' :: rest)) =
    (match (match jpStringGo (wd ++ '"' :: '\x7d' :: rest) [] with
            | some (s, r) => some (Json.str s, r)
            | none => none) with
     | none => none
     | some (v, r3) =>
       match skipWs r3 with
       | ',' :: r4 => jpObjItems (fuel + 1) (skipWs r4) ([] ++ [("desc", v)])
       | '\x7d' :: r4 => some (Json.obj ([] ++ [("desc", v)]), r4)
       | _ => none) from rfl]
  rw [jpStringGo_skip wd ('\x7d' :: rest) [] hw]
  simp [show skipWs ('\x7d' :: rest) = '\x7d' :: rest from skipWs_nonws _ _ rfl]

/-- C9: the first-braced extractor and the largest-balanced-block scanner both
track quoted-string state, so a brace inside a JSON string value does not
unbalance the span: on a response consisting of a prefix and a single object
with one string value (no quotes, backslashes, backticks or control characters
in the value), both scanners isolate exactly the whole object, and the
recovery cascade returns that object with the string value intact. -/
theorem c9_thm (w : String)
    (hw : ∀ c ∈ w.data, c ≠ '"' ∧ c ≠ bslash ∧ c ≠ btick ∧ 32 ≤ c.toNat) :
    extractFirstBraced (c9raw w).data = some (c9obj w).data ∧
    findLargestBalanced (c9raw w).data = some (c9obj w).data ∧
    recover (c9raw w) = .ok (.obj [("desc", .str w)]) := by
  obtain ⟨wd⟩ := w
  have hw2 : ∀ c ∈ wd, c ≠ '"' ∧ c ≠ bslash ∧ 32 ≤ c.toNat :=
    fun c hc => ⟨(hw c hc).1, (hw c hc).2.1, (hw c hc).2.2.2⟩
  have hwq : ∀ c ∈ wd, c ≠ '"' ∧ c ≠ bslash :=
    fun c hc => ⟨(hw c hc).1, (hw c hc).2.1⟩
  have hobj : (c9obj ⟨wd⟩).data =
      '\x7b' :: '"' :: 'd' :: 'e' :: 's' :: 'c' :: '"' :: ':' :: '"' ::
        (wd ++ ['"', '\x7d']) := by
    simp [c9obj]
  have hdata : (c9raw ⟨wd⟩).data =
      ("Sure: ").data ++
        ('\x7b' :: '"' :: 'd' :: 'e' :: 's' :: 'c' :: '"' :: ':' :: '"' ::
          (wd ++ ['"', '\x7d'])) := by
    rw [show (c9raw ⟨wd⟩).data = ("Sure: ").data ++ (c9obj ⟨wd⟩).data from rfl, hobj]
  -- extraction
  have hextract : extractFirstBraced (c9raw ⟨wd⟩).data = some (c9obj ⟨wd⟩).data := by
    rw [hdata, extractFirstBraced_prefix _ _ (by decide), hobj]
    rw [show extractFirstBraced
        ('\x7b' :: '"' :: 'd' :: 'e' :: 's' :: 'c' :: '"' :: ':' :: '"' ::
          (wd ++ ['"', '\x7d'])) =
      extractAfter (wd ++ ['"', '\x7d'])
        ('"' :: ':' :: '"' :: 'c' :: 's' :: 'e' :: 'd' :: '"' :: '\x7b' :: [])
        1 true '"' false from rfl]
    rw [extractAfter_skip wd _ _ 1 '"' hwq]
    rw [show extractAfter ['"', '\x7d']
        (wd.reverse ++ ('"' :: ':' :: '"' :: 'c' :: 's' :: 'e' :: 'd' :: '"' :: '\x7b' :: []))
        1 true '"' false =
      some (('\x7d' :: '"' ::
        (wd.reverse ++ ('"' :: ':' :: '"' :: 'c' :: 's' :: 'e' :: 'd' :: '"' :: '\x7b' :: []))).reverse)
      from rfl]
    simp
  have hflb : findLargestBalanced (c9raw ⟨wd⟩).data = some (c9obj ⟨wd⟩).data := by
    rw [findLargestBalanced, balancedSpans, hdata]
    rw [show flbGo
        (("Sure: ").data ++
          ('\x7b' :: '"' :: 'd' :: 'e' :: 's' :: 'c' :: '"' :: ':' :: '"' ::
            (wd ++ ['"', '\x7d']))) false ' ' false 0 [] [] =
      flbGo (wd ++ ['"', '\x7d']) true '"' false 1
        ('"' :: ':' :: '"' :: 'c' :: 's' :: 'e' :: 'd' :: '"' :: '\x7b' :: []) []
      from rfl]
    rw [flbGo_skip wd _ '"' _ [] hwq]
    rw [show flbGo ['"', '\x7d'] true '"' false 1
        (wd.reverse ++ ('"' :: ':' :: '"' :: 'c' :: 's' :: 'e' :: 'd' :: '"' :: '\x7b' :: [])) [] =
      [('\x7d' :: '"' ::
        (wd.reverse ++ ('"' :: ':' :: '"' :: 'c' :: 's' :: 'e' :: 'd' :: '"' :: '\x7b' :: []))).reverse]
      from rfl]
    rw [hobj]
    simp [maxByLen]
  have hdataS : (c9raw ⟨wd⟩).data =
      'S' :: 'u' :: 'r' :: 'e' :: ':' :: ' ' ::
        '\x7b' :: '"' :: 'd' :: 'e' :: 's' :: 'c' :: '"' :: ':' :: '"' ::
        (wd ++ ['"', '\x7d']) := by
    rw [hdata]; rfl
  have hjraw : jsonParse (c9raw ⟨wd⟩) = none := by
    rw [jsonParse, hdataS]
    rw [show ∀ n : Nat, n + 3 = (n + 2) + 1 from fun n => rfl]
    rw [jpVal_S_none]
  have hnb : ∀ c ∈ (c9raw ⟨wd⟩).data, c ≠ btick := by
    intro c hc
    rw [hdataS] at hc
    simp only [List.mem_cons, List.mem_append, List.not_mem_nil, or_false] at hc
    rcases hc with rfl|rfl|rfl|rfl|rfl|rfl|rfl|rfl|rfl|rfl|rfl|rfl|rfl|rfl|rfl|hm|rfl|rfl <;>
      first
      | decide
      | exact (hw _ hm).2.2.1
  have hisol : isolateTruthy (c9raw ⟨wd⟩).data = some (c9obj ⟨wd⟩).data := by
    simp only [isolateTruthy, isolateSpan, tryFenced_none _ hnb, hextract]
    rw [hobj]
    simp
  have hjobj : jsonParse (String.mk (c9obj ⟨wd⟩).data) =
      some (.obj [("desc", .str ⟨wd⟩)]) := by
    rw [jsonParse]
    rw [show (String.mk (c9obj ⟨wd⟩).data).data = (c9obj ⟨wd⟩).data from rfl, hobj]
    rw [jpVal_obj _ wd [] hw2]
    rfl
  have hrec : recover (c9raw ⟨wd⟩) = .ok (.obj [("desc", .str ⟨wd⟩)]) := by
    rw [recover, recoverFull, hjraw]
    simp only [hisol, hjobj]
  exact ⟨hextract, hflb, hrec⟩

theorem c9_witness :
    (∀ c ∈ ("a\x7bb\x7dc").data, c ≠ '"' ∧ c ≠ bslash ∧ c ≠ btick ∧ 32 ≤ c.toNat) ∧
    recover (c9raw "a\x7bb\x7dc") = .ok (.obj [("desc", .str "a\x7bb\x7dc")]) :=
  ⟨by decide, (c9_thm "a\x7bb\x7dc" (by decide)).2.2⟩
end ThreatForecast
